import Mathlib

/-!
Verification development for the quote-card image composition engine
(`lib/miq.py`, class `MakeItQuote`).  The Python source is shallowly
embedded: pure computations become Lean functions, the `lru_cache` /
dict caches become explicit state threading, PIL images are modelled by
their dimensions, mode and per-pixel alpha channel, and Python
exceptions become `Except` values carrying the `from e` cause chain.
-/

namespace Miq

/-- Python exception values as raised by `lib/miq.py`.  The code raises
`FileNotFoundError` and `ValueError`; every `raise ValueError(...) from e`
keeps its cause, which we record so that the root cause of a wrapped
error stays observable (`rootCause`). -/
inductive PyErr where
  | fileNotFound (msg : String)
  | valueError (msg : String) (cause : Option PyErr)
deriving Repr

/-- Follow the `from e` cause chain of an exception down to the
originally raised error. -/
def rootCause : PyErr → PyErr
  | .fileNotFound m => .fileNotFound m
  | .valueError m none => .valueError m none
  | .valueError _ (some c) => rootCause c

/-- Whitespace characters recognised by Python's `textwrap` module
(`string.whitespace` restricted to ASCII: tab, newline, vertical tab,
form feed, carriage return, space). -/
def isPyWs (c : Char) : Bool :=
  c == ' ' || c == '\t' || c == '\n' || c == '\x0b' || c == '\x0c' || c == '\r'

/-- ASCII regex `\w`: letters, digits and underscore. -/
def isWordChar (c : Char) : Bool := c.isAlphanum || c == '_'

/-- `textwrap`'s `letter` class `[^\d\W]`: a word character that is not
a digit. -/
def isLetterChar (c : Char) : Bool := c.isAlpha || c == '_'

/-- `textwrap`'s `word_punct` class: `[\w!"'&.,?]`. -/
def isWordPunct (c : Char) : Bool :=
  isWordChar c || c == '!' || c == Char.ofNat 34 || c == Char.ofNat 39 ||
    c == '&' || c == '.' || c == ',' || c == '?'

/-! ### Model of `textwrap.wrap` (CPython, default `TextWrapper` settings)

`MakeItQuote._wrap_text` delegates to the standard library
`textwrap.wrap(text, width=width)` with all defaults:
`expand_tabs=True`, `tabsize=8`, `replace_whitespace=True`,
`drop_whitespace=True`, `break_long_words=True`, `break_on_hyphens=True`,
`max_lines=None`.  The definitions below transliterate
`_munge_whitespace`, `_split` (the `wordsep_re` chunker, restricted to
ASCII character classes), `_handle_long_word` and `_wrap_chunks`.
Recursions are written with an explicit fuel argument so that every
function reduces in the kernel; the top-level entry point supplies
enough fuel for the loops to run to completion. -/

/-- `str.expandtabs(8)`: replace each tab by spaces up to the next
multiple of 8 columns; `\n` and `\r` reset the column counter. -/
def expandTabsGo : Nat → List Char → List Char
  | _, [] => []
  | col, c :: cs =>
    if c = '\t' then
      let n := 8 - col % 8
      List.replicate n ' ' ++ expandTabsGo (col + n) cs
    else if c = '\n' ∨ c = '\r' then
      c :: expandTabsGo 0 cs
    else
      c :: expandTabsGo (col + 1) cs

/-- `TextWrapper._munge_whitespace`: expand tabs, then translate every
whitespace character to a plain space. -/
def mungeWhitespace (s : String) : List Char :=
  (expandTabsGo 0 s.toList).map (fun c => if isPyWs c then ' ' else c)

/-- Character at index `i`, with a space (whitespace, not a letter, not
a word character, not a hyphen) standing in for out-of-bounds reads, so
that regex lookaheads past the end of the string behave correctly. -/
def getC (arr : Array Char) (i : Nat) : Char := arr.getD i ' '

/-- Length of the run of `-` characters starting at index `i`
(out-of-bounds reads yield a space and stop the run). -/
def hyphenRunLen (arr : Array Char) : Nat → Nat → Nat
  | 0, _ => 0
  | fuel + 1, i => if getC arr i == '-' then hyphenRunLen arr fuel (i + 1) + 1 else 0

/-- The `wordsep_re` alternative for an em-dash between words:
`(?<=word_punct) -{2,} (?=\w)`.  Returns the length of the matched
hyphen run when the alternative matches at position `p`. -/
def emDashLen (arr : Array Char) (p : Nat) : Option Nat :=
  let m := hyphenRunLen arr (arr.size + 1) p
  if decide (2 ≤ m) && decide (1 ≤ p) && isWordPunct (getC arr (p - 1)) &&
      isWordChar (getC arr (p + m)) then
    some m
  else none

/-- The hyphenated-word boundary of `wordsep_re`: a word may end just
after a hyphen when the lookbehind is `letter letter -` or
`letter - letter -` and the lookahead is `letter -? letter`. -/
def hyphenBoundary (arr : Array Char) (q : Nat) : Bool :=
  decide (1 ≤ q) && (getC arr (q - 1) == '-') &&
  ((decide (3 ≤ q) && isLetterChar (getC arr (q - 3)) && isLetterChar (getC arr (q - 2))) ||
   (decide (4 ≤ q) && isLetterChar (getC arr (q - 4)) && (getC arr (q - 3) == '-') &&
      isLetterChar (getC arr (q - 2)))) &&
  (isLetterChar (getC arr q) &&
    (isLetterChar (getC arr (q + 1)) ||
      ((getC arr (q + 1) == '-') && isLetterChar (getC arr (q + 2)))))

/-- The em-dash lookahead boundary of `wordsep_re`:
`(?<=word_punct)(?=-{2,}\w)` ends a word right before an em-dash run. -/
def emDashBoundary (arr : Array Char) (q : Nat) : Bool :=
  decide (1 ≤ q) && isWordPunct (getC arr (q - 1)) &&
    (getC arr q == '-') && (getC arr (q + 1) == '-') &&
    isWordChar (getC arr (q + hyphenRunLen arr (arr.size + 1) q))

/-- A position where a non-whitespace word chunk may end: end of text,
whitespace, a hyphenated-word break, or an upcoming em-dash. -/
def wordBoundary (arr : Array Char) (q : Nat) : Bool :=
  decide (arr.size ≤ q) || isPyWs (getC arr q) || hyphenBoundary arr q || emDashBoundary arr q

/-- First word boundary at or after `q` (the lazy `[^ws]+?` of
`wordsep_re` stops at the earliest admissible end position). -/
def findWordEnd (arr : Array Char) : Nat → Nat → Nat
  | 0, q => q
  | fuel + 1, q => if wordBoundary arr q then q else findWordEnd arr fuel (q + 1)

/-- End of the whitespace run starting at `q`. -/
def wsRunEnd (arr : Array Char) (q : Nat) : Nat :=
  q + ((arr.toList.drop q).takeWhile isPyWs).length

/-- The substring of `arr` from `p` (inclusive) to `q` (exclusive). -/
def subStr (arr : Array Char) (p q : Nat) : String := String.mk ((arr.extract p q).toList)

/-- One pass of `TextWrapper._split`: cut the munged text into chunks
(whitespace runs, em-dash runs, and words ending at `wordsep_re`
boundaries).  `re.split` with a capturing group returns separators and
the (here always empty) text between them; empty strings are filtered
out, which the chunker never produces. -/
def splitGo (arr : Array Char) : Nat → Nat → List String
  | 0, _ => []
  | fuel + 1, p =>
    if h : p < arr.size then
      if isPyWs arr[p] then
        let q := wsRunEnd arr p
        subStr arr p q :: splitGo arr fuel q
      else
        match emDashLen arr p with
        | some m => subStr arr p (p + m) :: splitGo arr fuel (p + m)
        | none =>
          let q := findWordEnd arr (arr.size + 1) (p + 1)
          subStr arr p q :: splitGo arr fuel q
    else []

/-- `TextWrapper._split` on the munged text. -/
def splitChunks (text : String) : List String :=
  let arr := (mungeWhitespace text).toArray
  splitGo arr (arr.size + 1) 0

/-- Sum of the lengths of a list of chunks (`sum(map(len, cur_line))`). -/
def sumLens (l : List String) : Nat := (l.map String.length).sum

/-- `chunk.strip() == ''`: the chunk consists of whitespace only. -/
def isBlankStr (s : String) : Bool := s.toList.all isPyWs

/-- `chunk.rfind('-', 0, bound)`: the largest index `< bound` holding a
hyphen, if any. -/
def rfindHyphen (cs : List Char) (bound : Nat) : Option Nat :=
  (List.range bound).reverse.find? (fun i => cs.getD i ' ' == '-')

/-- `TextWrapper._handle_long_word` with `break_long_words=True` and
`break_on_hyphens=True`: break the head chunk to fill the space left on
the current line, preferring to break just after the last hyphen that
fits.  (`cur_len ≤ width` holds at every call site, so the natural
subtraction in `space_left` agrees with Python's.) -/
def handleLongWord (chunks curLine : List String) (curLen width : Nat) :
    List String × List String :=
  match chunks with
  | [] => (curLine, [])
  | chunk :: rest =>
    let spaceLeft := if width < 1 then 1 else width - curLen
    let cs := chunk.toList
    let endIdx :=
      if decide (spaceLeft < cs.length) then
        match rfindHyphen cs spaceLeft with
        | some hy =>
          if decide (0 < hy) && (cs.take hy).any (fun c => !(c == '-')) then hy + 1
          else spaceLeft
        | none => spaceLeft
      else spaceLeft
    (curLine ++ [String.mk (cs.take endIdx)], String.mk (cs.drop endIdx) :: rest)

/-- The greedy inner loop of `TextWrapper._wrap_chunks`: move chunks
onto the current line while they fit. -/
def greedyFill (width : Nat) : List String → List String → Nat →
    List String × Nat × List String
  | [], curLine, curLen => (curLine, curLen, [])
  | c :: rest, curLine, curLen =>
    if curLen + c.length ≤ width then
      greedyFill width rest (curLine ++ [c]) (curLen + c.length)
    else (curLine, curLen, c :: rest)

/-- The `_handle_long_word` call site inside `_wrap_chunks`: the head of
the remaining chunks is broken only when it is longer than the whole
line width. -/
def fixLong (width : Nat) (t : List String × Nat × List String) :
    List String × List String :=
  match t.2.2 with
  | r :: _ =>
    if width < r.length then handleLongWord t.2.2 t.1 t.2.1 width
    else (t.1, t.2.2)
  | [] => (t.1, t.2.2)

/-- Drop a trailing whitespace chunk from the current line
(`drop_whitespace=True`). -/
def dropTrailingWs (l : List String) : List String :=
  if !l.isEmpty && isBlankStr (l.getLastD "") then l.dropLast else l

/-- One iteration of the outer loop of `TextWrapper._wrap_chunks`
(defaults: both indents empty, `drop_whitespace=True`, `max_lines=None`):
a leading whitespace chunk is dropped on every line but the first
(`haveLines` mirrors `lines` being non-empty), chunks are moved onto the
line greedily, an over-long head chunk is broken, and a trailing
whitespace chunk is dropped.  Returns the chunks of the produced line
(possibly empty, in which case no line is emitted) and the remaining
chunks. -/
def wrapStep (width : Nat) (haveLines : Bool) (chunks : List String) :
    List String × List String :=
  let chunks1 :=
    if haveLines && isBlankStr (chunks.headD "") then chunks.tail else chunks
  let t := greedyFill width chunks1 [] 0
  let t2 := fixLong width t
  (dropTrailingWs t2.1, t2.2)

/-- The outer loop of `TextWrapper._wrap_chunks`. -/
def wrapGo (width : Nat) : Nat → Bool → List String → List String
  | 0, _, _ => []
  | _ + 1, _, [] => []
  | fuel + 1, haveLines, chunks =>
    let s := wrapStep width haveLines chunks
    if s.1.isEmpty then wrapGo width fuel haveLines s.2
    else String.join s.1 :: wrapGo width fuel true s.2

/-- `textwrap.wrap(text, width)` with default settings and `width ≥ 1`.
The fuel is sufficient because every iteration of `_wrap_chunks`
consumes at least one chunk or one character. -/
def pyWrap (text : String) (width : Nat) : List String :=
  let chunks := splitChunks text
  wrapGo width (sumLens chunks + chunks.length + 1) false chunks

/-- `textwrap.wrap` including its `ValueError` for a non-positive width
(`_wrap_chunks` rejects `width <= 0`; the width that `miq.py` passes is
a Python `int` that can be negative, hence the `Int` argument). -/
def pyWrapE (text : String) (width : Int) : Except PyErr (List String) :=
  if width ≤ 0 then .error (.valueError "invalid width (must be > 0)" none)
  else .ok (pyWrap text width.toNat)

/-- `MakeItQuote._wrap_text`: delegate to `textwrap.wrap` and wrap any
exception in a `ValueError` with a Japanese message, keeping the cause. -/
def wrapText (text : String) (width : Int) : Except PyErr (List String) :=
  match pyWrapE text width with
  | .error e => .error (.valueError "テキストの折り返し処理中にエラーが発生しました" (some e))
  | .ok l => .ok l

/-! ### `_calculate_optimal_font_size` (claim C2) -/

/-- Pixel-width metric of a loaded font:
`(path, size, text) ↦ ImageFont.truetype(path, size).getbbox(text)[2]`.
A loaded font is determined by its file path and size (see `truetype`
and `getFont` below), so the metric is modelled as a pure function
supplied by the environment. -/
abbrev BBoxFn := String → Nat → String → Nat

/-- A simple concrete metric, used for witnesses: every glyph of a font
of size `s` is `s` pixels wide. -/
def simpleBBox : BBoxFn := fun _ size text => size * text.length

/-- One test of the size-fitting loop in `_calculate_optimal_font_size`:
wrap the text at `(max_width - 100) // max(1, font.getbbox("A")[2])`
characters (Python floor division of a possibly negative numerator,
hence `Int.fdiv`), then check that the widest wrapped line is at most
`max_width - 100` pixels wide and that `line count * (size + 10)` is at
most `0.7 * max_height` (the float comparison is idealised as the
rational inequality `10 * total ≤ 7 * max_height`).  Python's `max()`
raises `ValueError` on the empty sequence of wrapped lines, which
happens whenever the text consists of whitespace only. -/
def fitTest (bb : BBoxFn) (text : String) (maxW maxH : Nat) (fontPath : String)
    (size : Nat) : Except PyErr Bool :=
  let glyphA := bb fontPath size "A"
  let wrapWidth : Int := ((maxW : Int) - 100).fdiv (max 1 glyphA)
  match wrapText text wrapWidth with
  | .error e => .error e
  | .ok [] => .error (.valueError "max() arg is an empty sequence" none)
  | .ok (l :: ls) =>
    let totalHeight := (l :: ls).length * (size + 10)
    let maxLineWidth := (ls.map (bb fontPath size)).foldl max (bb fontPath size l)
    .ok (decide ((maxLineWidth : Int) ≤ (maxW : Int) - 100) &&
      decide (10 * totalHeight ≤ 7 * maxH))

/-- The `while current_size > min_font_size` loop of
`_calculate_optimal_font_size` (floor 20, step 5): return the current
size as soon as a test succeeds, else decrement by 5; return 20 once
`current_size ≤ 20`.  The loop runs at most `size` times, so the fuel
supplied by the entry point is always sufficient. -/
def calcSizeGo (bb : BBoxFn) (text : String) (maxW maxH : Nat)
    (fontPath : String) : Nat → Nat → Except PyErr Nat
  | 0, _ => .ok 20
  | fuel + 1, size =>
    if 20 < size then
      match fitTest bb text maxW maxH fontPath size with
      | .error e => .error e
      | .ok true => .ok size
      | .ok false => calcSizeGo bb text maxW maxH fontPath fuel (size - 5)
    else .ok 20

/-- `MakeItQuote._calculate_optimal_font_size`: run the fitting loop and
wrap any exception in a `ValueError` with a Japanese message.  (The
`_get_font` calls inside the loop populate the font cache; they are
value-transparent — see `getFont_fresh` — and the loop reads font
metrics through `bb`.) -/
def calculateOptimalFontSize (bb : BBoxFn) (text : String) (maxW maxH : Nat)
    (fontPath : String) (initial : Nat) : Except PyErr Nat :=
  match calcSizeGo bb text maxW maxH fontPath (initial + 1) initial with
  | .error e => .error (.valueError "フォントサイズの計算中にエラーが発生しました" (some e))
  | .ok n => .ok n

/-! ### The font cache (`_get_font`; claim C6) -/

/-- A decoded FreeType font object.  `ImageFont.truetype(path, size)`
decodes the font file at `path` at pixel size `size`; with a fixed
filesystem the decoded object is determined by these two inputs, and
its metrics are read through a `BBoxFn`. -/
structure FTFont where
  path : String
  size : Nat
deriving DecidableEq

/-- `ImageFont.truetype(font_path, size)`: the fresh computation whose
results `_get_font` caches. -/
def truetype (path : String) (size : Nat) : FTFont := ⟨path, size⟩

/-- Association-list lookup, modelling `key in dict` / `dict[key]`. -/
def assocGet {κ α : Type} [DecidableEq κ] : List (κ × α) → κ → Option α
  | [], _ => none
  | (k2, v) :: rest, k => if k = k2 then some v else assocGet rest k

abbrev FontCache := List ((String × Nat) × FTFont)

/-- `MakeItQuote._get_font`: return the cached font object for
`(font_path, size)`, computing and inserting it on a miss.  Returns the
font and the updated cache. -/
def getFont (cache : FontCache) (path : String) (size : Nat) :
    FTFont × FontCache :=
  match assocGet cache (path, size) with
  | some f => (f, cache)
  | none =>
    let f := truetype path size
    (f, ((path, size), f) :: cache)

/-! ### PIL image model

Only the data the claims speak about is modelled: an image's width,
height, mode string and per-pixel alpha channel.  Colour channels are
not tracked.  The alpha channel is a total function on coordinates;
theorems about pixel values quantify over in-bounds coordinates. -/

abbrev RGB := Nat × Nat × Nat

abbrev RGBA := Nat × Nat × Nat × Nat

structure Img where
  w : Nat
  h : Nat
  mode : String
  alpha : Nat → Nat → Nat

/-- Resampling of the alpha band performed by `Image.resize` (LANCZOS),
kept abstract: arguments are the source alpha, source size and target
size.  Theorems assume only that resampling a constant band is the
constant band, which holds for any normalised interpolation kernel with
PIL's clamping. -/
abbrev AlphaResample := (Nat → Nat → Nat) → Nat × Nat → Nat × Nat → (Nat → Nat → Nat)

/-- Blur of the alpha band performed by `GaussianBlur(radius=3)`, kept
abstract with the same constant-preservation assumption. -/
abbrev AlphaBlur := (Nat → Nat → Nat) → (Nat → Nat → Nat)

/-- `Image.convert("RGBA")`: a source that already has an alpha channel
keeps it; any other source mode gets a fully opaque alpha channel. -/
def convertRGBA (i : Img) : Img :=
  if i.mode = "RGBA" then i
  else { i with mode := "RGBA", alpha := fun _ _ => 255 }

/-- `Image.new("RGBA", (w, h), color)`: constant alpha channel. -/
def newRGBA (w h : Nat) (c : RGBA) : Img :=
  { w := w, h := h, mode := "RGBA", alpha := fun _ _ => c.2.2.2 }

/-- `img.resize(size, Resampling.LANCZOS)`. -/
def resizeImg (rs : AlphaResample) (i : Img) (size : Nat × Nat) : Img :=
  { w := size.1, h := size.2, mode := i.mode, alpha := rs i.alpha (i.w, i.h) size }

/-- Porter-Duff source-over for one alpha sample, as computed by
`Image.alpha_composite` (integer arithmetic; exact whenever the
destination sample is fully opaque, the only case the theorems use). -/
def alphaOver (sa da : Nat) : Nat := sa + da * (255 - sa) / 255

/-- `Image.alpha_composite(dst, src)`: `src` over `dst`.  Both arguments
have equal size at every call site in `miq.py`; the result carries the
first argument's size as in PIL. -/
def alphaComposite (dst src : Img) : Img :=
  { w := dst.w, h := dst.h, mode := "RGBA",
    alpha := fun x y => alphaOver (src.alpha x y) (dst.alpha x y) }

/-- `ImageEnhance.Contrast(background).enhance(1.2)`.  PIL's enhancers
put the source alpha band back onto the degenerate image
(`degenerate.putalpha(image.getalpha())`), so the alpha channel is
unchanged; the colour channels are outside the model. -/
def enhanceContrast (i : Img) : Img := i

/-- `ImageEnhance.Brightness(...).enhance(0.85)`; alpha unchanged. -/
def enhanceBrightness (i : Img) : Img := i

/-- `ImageEnhance.Color(...).enhance(1.3)`; alpha unchanged. -/
def enhanceColor (i : Img) : Img := i

/-- `img.filter(ImageFilter.GaussianBlur(radius=3))`: blurs every band,
including alpha; the alpha blur itself is environment-supplied. -/
def blurImg (bl : AlphaBlur) (i : Img) : Img := { i with alpha := bl i.alpha }

/-- Linear interpolation `np.uint8(start * (1 - t) + end * t)` with
`t = y / n` and `n = length - 1` (`np.linspace(0, 1, length)`), as a
rational floor; the row index is clamped to the sampled range, mirroring
the finite numpy array. -/
def interpA (sa ea n y : Nat) : Nat :=
  if n = 0 then sa else (sa * (n - min y n) + ea * min y n) / n

/-- `_create_gradient_overlay`, restricted to the alpha channel: a
vertical gradient interpolates along `y`, a horizontal one along `x`. -/
def createGradientOverlay (size : Nat × Nat) (startC endC : RGBA)
    (direction : String) : Img :=
  { w := size.1, h := size.2, mode := "RGBA",
    alpha := fun x y =>
      if direction = "vertical" then interpA startC.2.2.2 endC.2.2.2 (size.2 - 1) y
      else interpA startC.2.2.2 endC.2.2.2 (size.1 - 1) x }

/-- Pixel-centre rasterisation of `draw.ellipse((0, 0, 2r, 2r),
fill=255)` on the `2r × 2r` circle image of `_apply_rounded_corners`:
pixel `(x, y)` is filled when its centre lies in the disc of radius `r`
around the image centre `(r, r)`. -/
def inCircle (r x y : Nat) : Bool :=
  decide ((2 * (x : Int) + 1 - 2 * r) ^ 2 + (2 * (y : Int) + 1 - 2 * r) ^ 2
    ≤ (2 * r) ^ 2)

/-- One sample of the circle image: 255 inside the disc, 0 outside. -/
def circlePix (r x y : Nat) : Nat := if inCircle r x y then 255 else 0

/-- The alpha mask built by `_apply_rounded_corners`: an all-white `"L"`
mask with the four quarter-circle crops pasted at the corners.  The
`if` chain checks the paste targets in reverse paste order (bottom-right
was pasted last and overwrites), which only matters when the corner
squares overlap. -/
def roundedMaskAlpha (w h r : Nat) (x y : Nat) : Nat :=
  if w - r ≤ x ∧ h - r ≤ y then circlePix r (x - (w - r) + r) (y - (h - r) + r)
  else if x < r ∧ h - r ≤ y then circlePix r x (y - (h - r) + r)
  else if w - r ≤ x ∧ y < r then circlePix r (x - (w - r) + r) y
  else if x < r ∧ y < r then circlePix r x y
  else 255

/-- `MakeItQuote._apply_rounded_corners`: convert to RGBA if needed,
copy, and `putalpha` the corner mask (replacing the whole alpha
channel). -/
def applyRoundedCorners (image : Img) (radius : Nat) : Img :=
  { image with
    mode := "RGBA"
    alpha := roundedMaskAlpha image.w image.h radius }

/-! ### `_add_text_with_effects_parallel` (claim C9) -/

/-- A PIL fill colour: RGB triple or RGBA quadruple. -/
inductive Fill where
  | rgb (c : RGB)
  | rgba (c : RGBA)
deriving DecidableEq

/-- One `draw.text(...)` pass onto the shared text layer. -/
structure PassOp where
  pos : Int × Int
  text : String
  font : FTFont
  fill : Fill
deriving DecidableEq

/-- `MakeItQuote._add_text_with_effects_parallel`: build the shadow
offsets `[(1, 1), …, (s, s)]` and the eight outline offsets
`[(i, j) | i, j ∈ {-1, 0, 1}, (i, j) ≠ (0, 0)]`, submit one draw pass
per offset to the worker pool, wait on every future, then draw the main
fill.  All passes target the same layer; the model serialises them in
submission order (shadow futures are created first, then outline
futures, and the main fill runs after the join), the schedule sanctioned
by the specification's serialisation requirement for writes to a shared
layer. -/
def addTextWithEffects (position : Int × Int) (text : String) (font : FTFont)
    (textColor : RGB) (shadowColor : RGBA) (shadowStrength : Nat := 3) :
    List PassOp :=
  let x := position.1
  let y := position.2
  let shadowOffsets : List (Int × Int) :=
    (List.range shadowStrength).map (fun i => (Int.ofNat i + 1, Int.ofNat i + 1))
  let deltas : List Int := [-1, 0, 1]
  let outlinePositions : List (Int × Int) :=
    deltas.flatMap (fun i =>
      (deltas.filter (fun j => !(i == 0 && j == 0))).map (fun j => (i, j)))
  let shadows := shadowOffsets.map (fun off =>
    ({ pos := (x + off.1, y + off.2), text := text, font := font,
       fill := Fill.rgba shadowColor } : PassOp))
  let outlines := outlinePositions.map (fun off =>
    ({ pos := (x + off.1, y + off.2), text := text, font := font,
       fill := Fill.rgba (0, 0, 0, 255) } : PassOp))
  shadows ++ outlines ++
    [{ pos := position, text := text, font := font, fill := Fill.rgb textColor }]

/-! ### Asset resolution (`_get_random_background`, `_get_random_font`;
claims C4, C5) -/

/-- `str.lower()` (ASCII case folding suffices for the extension
comparisons made here). -/
def strLower (s : String) : String := String.mk (s.toList.map Char.toLower)

/-- `str.endswith(suffix)`. -/
def strEndsWith (s suffix : String) : Bool := suffix.toList.isSuffixOf s.toList

/-- File filter of `_get_random_background`:
`f.lower().endswith((".png", ".jpg", ".jpeg"))`. -/
def isBgFile (f : String) : Bool :=
  strEndsWith (strLower f) ".png" || strEndsWith (strLower f) ".jpg" ||
    strEndsWith (strLower f) ".jpeg"

/-- File filter of `_get_random_font`:
`f.lower().endswith((".ttf", ".otf"))`. -/
def isFontFile (f : String) : Bool :=
  strEndsWith (strLower f) ".ttf" || strEndsWith (strLower f) ".otf"

/-- `MakeItQuote._get_random_background`.  The Python method takes no
argument besides `self` and is decorated with `@lru_cache(maxsize=32)`:
the cache key is the bound instance, so the body — directory listing
*and* `random.choice` — runs at most once per instance, after which the
cached path is returned unchanged.  `cached` is the lru entry for this
instance, `listing` the `os.listdir` result at call time (`none`: the
directory is missing and `os.listdir` raises `FileNotFoundError`, an
`OSError`), and `choose` the `random.choice` draw available to this
call.  Returns the result, the updated lru entry (`lru_cache` does not
cache raised exceptions) and whether the directory was enumerated. -/
def getRandomBackground (dir : String) (listing : Option (List String))
    (choose : List String → String) (cached : Option String) :
    Except PyErr String × Option String × Bool :=
  match cached with
  | some p => (.ok p, some p, false)
  | none =>
    match listing with
    | none =>
      (.error (.valueError "背景画像の取得中にエラーが発生しました"
        (some (.fileNotFound "[Errno 2] No such file or directory"))), none, true)
    | some l =>
      let backgrounds := l.filter isBgFile
      if backgrounds.isEmpty then
        (.error (.valueError "背景画像の取得中にエラーが発生しました"
          (some (.fileNotFound "背景画像が見つかりません。"))), none, true)
      else
        let p := dir ++ "/" ++ choose backgrounds
        (.ok p, some p, true)

/-- `MakeItQuote._get_random_font`: identical shape to
`_get_random_background` with the font directory, extensions and
messages. -/
def getRandomFont (dir : String) (listing : Option (List String))
    (choose : List String → String) (cached : Option String) :
    Except PyErr String × Option String × Bool :=
  match cached with
  | some p => (.ok p, some p, false)
  | none =>
    match listing with
    | none =>
      (.error (.valueError "フォントの取得中にエラーが発生しました"
        (some (.fileNotFound "[Errno 2] No such file or directory"))), none, true)
    | some l =>
      let fonts := l.filter isFontFile
      if fonts.isEmpty then
        (.error (.valueError "フォントの取得中にエラーが発生しました"
          (some (.fileNotFound "フォントファイルが見つかりません。"))), none, true)
      else
        let p := dir ++ "/" ++ choose fonts
        (.ok p, some p, true)

/-! ### Cache correctness (claim C6) -/

abbrev GradientCache := List (((Nat × Nat) × String) × Img)

/-- The gradient lookup-or-insert inside `_enhance_background_parallel`
(`if gradient_key not in self._gradient_cache: ...`), always invoked
with start colour `(0, 0, 0, 0)` and end colour `(0, 0, 0, 180)`. -/
def getGradient (cache : GradientCache) (size : Nat × Nat) (direction : String) :
    Img × GradientCache :=
  match assocGet cache (size, direction) with
  | some g => (g, cache)
  | none =>
    let g := createGradientOverlay size (0, 0, 0, 0) (0, 0, 0, 180) direction
    (g, ((size, direction), g) :: cache)

/-- Every entry of the font cache is the font that
`ImageFont.truetype` would decode for its key. -/
def FontCacheWF (cache : FontCache) : Prop :=
  ∀ kv ∈ cache, kv.2 = truetype kv.1.1 kv.1.2

/-- Every entry of the gradient cache is the overlay that
`_create_gradient_overlay` would build for its key. -/
def GradientCacheWF (cache : GradientCache) : Prop :=
  ∀ kv ∈ cache,
    kv.2 = createGradientOverlay kv.1.1 (0, 0, 0, 0) (0, 0, 0, 180) kv.1.2

/-! ### Style presets and the engine environment -/

/-- A style dictionary.  The Python presets are string-keyed dicts read
with `style_settings.get(key, default)`; an absent key is `none`. -/
structure StyleDict where
  font_size : Option Nat := none
  text_color : Option RGB := none
  shadow_opacity : Option Nat := none
  gradient_overlay : Option Bool := none
  rounded_corners : Option Bool := none
  overlay_opacity : Option Nat := none
  shadow_strength : Option Nat := none
deriving DecidableEq

/-- The `"modern"` entry of `self.style_presets`.  None of the presets
defines a `shadow_strength` key. -/
def modernPreset : StyleDict :=
  { font_size := some 64, text_color := some (255, 255, 255),
    shadow_opacity := some 180, gradient_overlay := some true,
    rounded_corners := some true, overlay_opacity := some 160 }

/-- The `"minimal"` entry of `self.style_presets`. -/
def minimalPreset : StyleDict :=
  { font_size := some 72, text_color := some (255, 255, 255),
    shadow_opacity := some 100, gradient_overlay := some false,
    rounded_corners := some false, overlay_opacity := some 120 }

/-- The `"bold"` entry of `self.style_presets`. -/
def boldPreset : StyleDict :=
  { font_size := some 84, text_color := some (255, 232, 115),
    shadow_opacity := some 200, gradient_overlay := some true,
    rounded_corners := some false, overlay_opacity := some 180 }

/-- Lookup in `self.style_presets`. -/
def stylePresets (name : String) : Option StyleDict :=
  if name = "modern" then some modernPreset
  else if name = "minimal" then some minimalPreset
  else if name = "bold" then some boldPreset
  else none

/-- The `style` argument of `create_quote`: a preset name or an explicit
settings dict. -/
inductive StyleSel where
  | presetName (s : String)
  | custom (d : StyleDict)

/-- `style_settings = self.style_presets.get(style,
self.style_presets["modern"]) if isinstance(style, str) else style`. -/
def resolveStyle : StyleSel → StyleDict
  | .presetName s => (stylePresets s).getD modernPreset
  | .custom d => d

/-- The text element a `create_quote` draw call belongs to. -/
inductive Element where
  | quoteMark
  | quoteLine
  | author
  | watermark
deriving DecidableEq

/-- One `_add_text_with_effects_parallel` call made by `create_quote`,
with the element it draws and the arguments passed (the font is
`_get_font(font_path, fontSize)`). -/
structure DrawOp where
  element : Element
  pos : Int × Int
  text : String
  fontSize : Nat
  textColor : RGB
  shadowColor : RGBA
  strength : Nat
deriving DecidableEq

/-- Observable engine operations, in program order. -/
inductive Ev where
  | listFontDir
  | listBgDir
  | overlay (opacity : Nat)
  | gradientOverlay
  | draw (op : DrawOp)
  | rounded (radius : Nat)
deriving DecidableEq

/-- The engine's environment: the asset directory contents and the
random draws available to the current call, the font metric, background
decoding (`Image.open`; `none` = the file cannot be read), the
abstracted alpha-band resampling/blur, and the alpha channel that
rasterising a list of draw calls produces on the transparent text layer
(glyph shapes are outside the model). -/
structure Env where
  fontsDir : String
  backgroundsDir : String
  fontsList : Option (List String)
  backgroundsList : Option (List String)
  chooseFont : List String → String
  chooseBg : List String → String
  bbox : BBoxFn
  openImage : String → Option Img
  resampleAlpha : AlphaResample
  blurAlpha : AlphaBlur
  textRaster : List DrawOp → Nat → Nat → Nat

/-- Engine-instance state: the `_font_cache` and `_gradient_cache`
dicts and the two `lru_cache` entries.  (The `_background_cache` dict
initialised in `__init__` is never read or written afterwards.) -/
structure MiqState where
  fontCache : FontCache
  gradientCache : GradientCache
  bgPick : Option String
  fontPick : Option String

/-- A freshly constructed engine instance: empty caches. -/
def initState : MiqState := ⟨[], [], none, none⟩

/-- `MakeItQuote._enhance_background_parallel`: enhance (contrast ×1.2,
brightness ×0.85, colour ×1.3 — submitted to the pool and joined at
once), Gaussian-blur, alpha-composite the uniform black overlay of
`overlay_opacity` (default 160) over the RGBA-converted image, then,
when `gradient_overlay` is set, composite the cached vertical black
gradient keyed by the image size. -/
def enhanceBackground (env : Env) (gcache : GradientCache) (background : Img)
    (style : StyleDict) : Img × GradientCache × List Ev :=
  let enhanced := enhanceColor (enhanceBrightness (enhanceContrast background))
  let blurred := blurImg env.blurAlpha enhanced
  let overlayOpacity := style.overlay_opacity.getD 160
  let ovl := newRGBA blurred.w blurred.h (0, 0, 0, overlayOpacity)
  let composited := alphaComposite (convertRGBA blurred) ovl
  if style.gradient_overlay.getD false then
    let t := getGradient gcache (composited.w, composited.h) "vertical"
    (alphaComposite composited t.1, t.2,
      [Ev.overlay overlayOpacity, Ev.gradientOverlay])
  else
    (composited, gcache, [Ev.overlay overlayOpacity])

/-- The `prepare_background` closure of `create_quote`: resolve the
random background when none was supplied, `Image.open` it, convert to
RGBA, resize to the requested output size with LANCZOS, and enhance.
A supplied background skips resolution and decoding but is converted
and resized the same way. -/
def prepareBackground (env : Env) (st : MiqState) (backgroundImage : Option Img)
    (outputSize : Nat × Nat) (style : StyleDict) :
    Except PyErr Img × MiqState × List Ev :=
  match backgroundImage with
  | none =>
    let t := getRandomBackground env.backgroundsDir env.backgroundsList
      env.chooseBg st.bgPick
    let st1 : MiqState := { st with bgPick := t.2.1 }
    let ev1 : List Ev := if t.2.2 then [Ev.listBgDir] else []
    match t.1 with
    | .error e => (.error e, st1, ev1)
    | .ok path =>
      match env.openImage path with
      | none =>
        (.error (.valueError "背景画像の読み込み中にエラーが発生しました" none), st1, ev1)
      | some im =>
        let bg := resizeImg env.resampleAlpha (convertRGBA im) outputSize
        let t2 := enhanceBackground env st1.gradientCache bg style
        (.ok t2.1, { st1 with gradientCache := t2.2.1 }, ev1 ++ t2.2.2)
  | some im =>
    let bg := resizeImg env.resampleAlpha (convertRGBA im) outputSize
    let t2 := enhanceBackground env st.gradientCache bg style
    (.ok t2.1, { st with gradientCache := t2.2.1 }, t2.2.2)

/-- The quote-mark glyph `'"'` drawn above the text. -/
def quoteMarkGlyph : String := String.mk [Char.ofNat 34]

/-- The watermark string. -/
def creditText : String := "Powered by Swiftly"

/-- The text-drawing phase of `create_quote`, as the list of
`_add_text_with_effects_parallel` calls it makes, in submission order:
the large quote mark (fixed size 120, default shadow strength 3), one
call per wrapped quote line (strength `style.get("shadow_strength", 2)`,
submitted to the pool and joined), the author line `"— {author}"` when
`author` is truthy (size 36, default strength 3), and the watermark
(colour `(200, 200, 200)`, shadow `(0, 0, 0, 150)`, strength 1).
`max_chars_per_line = min(80, max(10, int(width * 0.8 //
max(1, quote_font.getbbox("あ")[2]))))`; the float product
`width * 0.8` is idealised as `width * 4 / 5`. -/
def renderDrawOps (env : Env) (styleS : StyleDict) (quote : String)
    (author : Option String) (width height : Nat) (fontPath : String)
    (fontSize : Nat) (textColor : RGB) (shadowColor : RGBA) : List DrawOp :=
  let maxCharsPerLine :=
    min 80 (max 10 ((width * 4 / 5) / max 1 (env.bbox fontPath fontSize "あ")))
  let wrappedQuote := pyWrap quote maxCharsPerLine
  let totalQuoteHeight := wrappedQuote.length * (fontSize + 10)
  let startY : Int :=
    max (((height : Int) - totalQuoteHeight).fdiv 2) ((height : Int).fdiv 3)
  let quoteMarkY : Int :=
    if 5 < wrappedQuote.length then max ((height : Int).fdiv 12) (startY - 60)
    else (height : Int).fdiv 6
  let quoteMarkOp : DrawOp :=
    { element := .quoteMark, pos := ((width : Int).fdiv 8, quoteMarkY),
      text := quoteMarkGlyph, fontSize := 120, textColor := textColor,
      shadowColor := shadowColor, strength := 3 }
  let lineOps := wrappedQuote.enum.map (fun p =>
    { element := .quoteLine,
      pos := (((width : Int) - env.bbox fontPath fontSize p.2).fdiv 2,
        startY + Int.ofNat (p.1 * (fontSize + 10))),
      text := p.2, fontSize := fontSize, textColor := textColor,
      shadowColor := shadowColor,
      strength := styleS.shadow_strength.getD 2 })
  let authorOps : List DrawOp :=
    match author with
    | some a =>
      if a = "" then []
      else
        [{ element := .author,
           pos := (((width : Int) - env.bbox fontPath 36 ("— " ++ a)).fdiv 2,
             startY + Int.ofNat (wrappedQuote.length * (fontSize + 10)) + 30),
           text := "— " ++ a, fontSize := 36, textColor := textColor,
           shadowColor := shadowColor, strength := 3 }]
    | none => []
  let creditFontSize := max (fontSize / 5) 12
  let creditOp : DrawOp :=
    { element := .watermark,
      pos := ((width : Int) - env.bbox fontPath creditFontSize creditText - 20,
        (height : Int) - creditFontSize - 20),
      text := creditText, fontSize := creditFontSize,
      textColor := (200, 200, 200), shadowColor := (0, 0, 0, 150),
      strength := 1 }
  quoteMarkOp :: (lineOps ++ authorOps ++ [creditOp])

/-- The outer `except` of `create_quote`: every escaping exception is
re-raised as `ValueError("画像生成中にエラーが発生しました: ...") from e`. -/
def outerWrap (e : PyErr) : PyErr :=
  .valueError "画像生成中にエラーが発生しました" (some e)

/-- `font_path = font_path or self._get_random_font()`: an explicit
argument is used as-is; otherwise the lru-cached random font lookup
runs. -/
def resolveFontPath (env : Env) (st : MiqState) (fontPathArg : Option String) :
    Except PyErr String × MiqState × List Ev :=
  match fontPathArg with
  | some p => (.ok p, st, [])
  | none =>
    let t := getRandomFont env.fontsDir env.fontsList env.chooseFont st.fontPick
    (t.1, { st with fontPick := t.2.1 },
      if t.2.2 then [Ev.listFontDir] else [])

/-- `MakeItQuote.create_quote`, sequentialised: worker-pool tasks
(background preparation runs concurrently with font preparation, each
draw call fans out its effect passes) are evaluated at their submission
points, and every future is joined before compositing, as in the code.
Returns the result, the updated instance state and the trace of
observable operations in program order.  Steps: resolve the style
(falling back to `"modern"`), resolve the font path (random when not
given), resolve colours, compute the font size
(`_calculate_optimal_font_size` when not given), prepare the
background, load the fonts into the cache, draw the text layer,
alpha-composite it over the background and optionally round the
corners with radius `int(min(width, height) * 0.05)` (idealised as
`min w h * 5 / 100`). -/
def createQuote (env : Env) (st : MiqState) (quote : String)
    (author : Option String) (outputSize : Nat × Nat)
    (fontPathArg : Option String) (fontSizeArg : Option Nat)
    (textColorArg : Option RGB) (backgroundImage : Option Img)
    (style : StyleSel) : Except PyErr Img × MiqState × List Ev :=
  let styleS := resolveStyle style
  let tf := resolveFontPath env st fontPathArg
  match tf.1 with
  | .error e => (.error (outerWrap e), tf.2.1, tf.2.2)
  | .ok fontPath =>
    let st1 := tf.2.1
    let ev1 := tf.2.2
    let textColor := textColorArg.getD (styleS.text_color.getD (255, 255, 255))
    let shadowColor : RGBA := (0, 0, 0, styleS.shadow_opacity.getD 180)
    let fsRes : Except PyErr Nat :=
      match fontSizeArg with
      | some s => .ok s
      | none =>
        calculateOptimalFontSize env.bbox quote outputSize.1 outputSize.2 fontPath
          (styleS.font_size.getD 72)
    match fsRes with
    | .error e => (.error (outerWrap e), st1, ev1)
    | .ok fontSize =>
      let tb := prepareBackground env st1 backgroundImage outputSize styleS
      match tb.1 with
      | .error e => (.error (outerWrap e), tb.2.1, ev1 ++ tb.2.2)
      | .ok background =>
        let st2 := tb.2.1
        let fc1 := (getFont st2.fontCache fontPath fontSize).2
        let fc2 := (getFont fc1 fontPath 36).2
        let fc3 := (getFont fc2 fontPath 120).2
        let creditFontSize := max (fontSize / 5) 12
        let fc4 := (getFont fc3 fontPath creditFontSize).2
        let st3 := { st2 with fontCache := fc4 }
        let ops := renderDrawOps env styleS quote author outputSize.1 outputSize.2
          fontPath fontSize textColor shadowColor
        let textLayer : Img :=
          { w := background.w, h := background.h, mode := "RGBA",
            alpha := env.textRaster ops }
        let composited := alphaComposite background textLayer
        if styleS.rounded_corners.getD false then
          let radius := min outputSize.1 outputSize.2 * 5 / 100
          (.ok (applyRoundedCorners composited radius), st3,
            ev1 ++ tb.2.2 ++ ops.map Ev.draw ++ [Ev.rounded radius])
        else
          (.ok composited, st3, ev1 ++ tb.2.2 ++ ops.map Ev.draw)

/-- A concrete environment used by the witnesses: one font file, two
background files, the `simpleBBox` metric, backgrounds decoding as
100×50 RGB images, identity resampling/blur on the alpha band and a
fully transparent text rasterisation. -/
def envA : Env :=
  { fontsDir := "fonts", backgroundsDir := "backgrounds",
    fontsList := some ["f.ttf"], backgroundsList := some ["a.png", "b.png"],
    chooseFont := fun l => l.headD "", chooseBg := fun l => l.headD "",
    bbox := simpleBBox,
    openImage := fun _ =>
      some { w := 100, h := 50, mode := "RGB", alpha := fun _ _ => 0 },
    resampleAlpha := fun a _ _ => a,
    blurAlpha := fun a => a,
    textRaster := fun _ _ _ => 0 }

/-- The quote-line draw call that the Scenario A run makes (used by the
C10 witness). -/
def witnessLineOp : DrawOp :=
  { element := .quoteLine, pos := (144, 499), text := "Hello world",
    fontSize := 72, textColor := (255, 255, 255),
    shadowColor := (0, 0, 0, 100), strength := 2 }

/-! ### Claim C8: rounded-corner alpha masking -/

/-- Spec-side description (stated from the claim's words, to be compared
with the code-derived `roundedMaskAlpha`): the pixel lies in one of the
four `r × r` corner squares and its centre is strictly outside the disc
of radius `r` centred `r` pixels into the image from that corner. -/
def specOutsideRounded (w h r x y : Nat) : Prop :=
  (x < r ∧ y < r ∧
    4 * (r : Int) ^ 2 < (2 * (x : Int) + 1 - 2 * (r : Int)) ^ 2 +
      (2 * (y : Int) + 1 - 2 * (r : Int)) ^ 2) ∨
  (w - r ≤ x ∧ x < w ∧ y < r ∧
    4 * (r : Int) ^ 2 < (2 * (x : Int) + 1 - 2 * ((w : Int) - (r : Int))) ^ 2 +
      (2 * (y : Int) + 1 - 2 * (r : Int)) ^ 2) ∨
  (x < r ∧ h - r ≤ y ∧ y < h ∧
    4 * (r : Int) ^ 2 < (2 * (x : Int) + 1 - 2 * (r : Int)) ^ 2 +
      (2 * (y : Int) + 1 - 2 * ((h : Int) - (r : Int))) ^ 2) ∨
  (w - r ≤ x ∧ x < w ∧ h - r ≤ y ∧ y < h ∧
    4 * (r : Int) ^ 2 < (2 * (x : Int) + 1 - 2 * ((w : Int) - (r : Int))) ^ 2 +
      (2 * (y : Int) + 1 - 2 * ((h : Int) - (r : Int))) ^ 2)

/-- Spec-side description of the straight-edge region: the pixel lies in
none of the four corner squares. -/
def specStraightEdge (w h r x y : Nat) : Prop :=
  ¬ ((x < r ∨ w - r ≤ x) ∧ (y < r ∨ h - r ≤ y))

/-- The abstraction hypotheses on the environment's alpha-band
operations: resampling and Gaussian blur take constant alpha bands to
the same constant (true of any normalised kernel with clamping), and
text rasterisation produces byte-range alpha samples. -/
def AlphaFaithful (env : Env) : Prop :=
  (∀ (a : Nat → Nat → Nat) (c : Nat), (∀ x y, a x y = c) →
    ∀ ssz dsz x y, env.resampleAlpha a ssz dsz x y = c) ∧
  (∀ (a : Nat → Nat → Nat) (c : Nat), (∀ x y, a x y = c) →
    ∀ x y, env.blurAlpha a x y = c) ∧
  (∀ ops x y, env.textRaster ops x y ≤ 255)

/-! ### Theorems -/

/-! ### Line-length bound for the wrapper (claim C3) -/

theorem sumLens_nil : sumLens [] = 0 := rfl

theorem sumLens_cons (c : String) (l : List String) :
    sumLens (c :: l) = c.length + sumLens l := by
  simp [sumLens]

theorem sumLens_append (l₁ l₂ : List String) :
    sumLens (l₁ ++ l₂) = sumLens l₁ + sumLens l₂ := by
  simp [sumLens]

theorem length_foldl_append (l : List String) (s : String) :
    (l.foldl (fun r t => r ++ t) s).length = s.length + sumLens l := by
  induction l generalizing s with
  | nil => simp [sumLens]
  | cons c cs ih =>
    simp only [List.foldl_cons, ih, String.length_append, sumLens_cons]
    omega

theorem length_join (l : List String) : (String.join l).length = sumLens l := by
  simpa [String.join] using length_foldl_append l ""

theorem sumLens_dropLast_le (l : List String) : sumLens l.dropLast ≤ sumLens l := by
  induction l with
  | nil => simp
  | cons c cs ih =>
    cases cs with
    | nil => simp [sumLens]
    | cons d ds =>
      simp only [List.dropLast_cons₂, sumLens_cons] at ih ⊢
      omega

theorem greedyFill_spec (width : Nat) :
    ∀ (chunks curLine : List String) (curLen : Nat),
      sumLens curLine = curLen → curLen ≤ width →
      sumLens (greedyFill width chunks curLine curLen).1 =
          (greedyFill width chunks curLine curLen).2.1 ∧
        (greedyFill width chunks curLine curLen).2.1 ≤ width := by
  intro chunks
  induction chunks with
  | nil =>
    intro curLine curLen h1 h2
    simpa [greedyFill] using ⟨h1, h2⟩
  | cons c rest ih =>
    intro curLine curLen h1 h2
    by_cases hc : curLen + c.length ≤ width
    · simpa [greedyFill, hc] using
        ih (curLine ++ [c]) (curLen + c.length)
          (by simp [sumLens_append, sumLens_cons, sumLens_nil, h1]) hc
    · simpa [greedyFill, hc] using ⟨h1, h2⟩

theorem rfindHyphen_lt (cs : List Char) (bound hy : Nat)
    (h : rfindHyphen cs bound = some hy) : hy < bound := by
  unfold rfindHyphen at h
  have hmem : hy ∈ (List.range bound).reverse := List.mem_of_find?_eq_some h
  rw [List.mem_reverse, List.mem_range] at hmem
  exact hmem

theorem handleLongWord_bound (chunks curLine : List String) (curLen width : Nat)
    (hw : 1 ≤ width) (h1 : sumLens curLine = curLen) (h2 : curLen ≤ width) :
    sumLens (handleLongWord chunks curLine curLen width).1 ≤ width := by
  cases chunks with
  | nil =>
    simp only [handleLongWord]
    omega
  | cons chunk rest =>
    have hnl : ¬ width < 1 := by omega
    simp only [handleLongWord, hnl, if_false]
    set cs := chunk.toList with hcs
    have hend : ∀ endIdx : Nat, endIdx ≤ width - curLen →
        sumLens (curLine ++ [String.mk (cs.take endIdx)]) ≤ width := by
      intro endIdx he
      simp only [sumLens_append, sumLens_cons, sumLens_nil, h1]
      have : (String.mk (cs.take endIdx)).length ≤ endIdx := by
        simp [List.length_take_le endIdx cs]
      omega
    split
    · next hlong =>
      cases hfind : rfindHyphen cs (width - curLen) with
      | none => exact hend _ (le_refl _)
      | some hy =>
        have hhy := rfindHyphen_lt cs (width - curLen) hy hfind
        simp only [hfind]
        split
        · exact hend (hy + 1) (by omega)
        · exact hend _ (le_refl _)
    · exact hend _ (le_refl _)

theorem dropTrailingWs_le (l : List String) :
    sumLens (dropTrailingWs l) ≤ sumLens l := by
  unfold dropTrailingWs
  split
  · exact sumLens_dropLast_le l
  · exact le_refl _

theorem fixLong_bound (width : Nat) (t : List String × Nat × List String)
    (hw : 1 ≤ width) (h1 : sumLens t.1 = t.2.1) (h2 : t.2.1 ≤ width) :
    sumLens (fixLong width t).1 ≤ width := by
  obtain ⟨cur, len, rest⟩ := t
  cases rest with
  | nil => simpa [fixLong] using h1 ▸ h2
  | cons r rs =>
    simp only [fixLong]
    split
    · exact handleLongWord_bound _ _ _ _ hw h1 h2
    · simpa using h1 ▸ h2

theorem wrapStep_bound (width : Nat) (hw : 1 ≤ width)
    (haveLines : Bool) (chunks : List String) :
    sumLens (wrapStep width haveLines chunks).1 ≤ width := by
  unfold wrapStep
  obtain ⟨hg1, hg2⟩ :=
    greedyFill_spec width
      (if haveLines && isBlankStr (chunks.headD "") then chunks.tail else chunks)
      [] 0 rfl (Nat.zero_le _)
  exact le_trans (dropTrailingWs_le _) (fixLong_bound width _ hw hg1 hg2)

theorem wrapGo_line_length (width : Nat) (hw : 1 ≤ width) :
    ∀ (fuel : Nat) (haveLines : Bool) (chunks : List String),
      ∀ line ∈ wrapGo width fuel haveLines chunks, line.length ≤ width := by
  intro fuel
  induction fuel with
  | zero => intro haveLines chunks line hline; simp [wrapGo] at hline
  | succ n ih =>
    intro haveLines chunks line hline
    cases chunks with
    | nil => simp [wrapGo] at hline
    | cons c rest =>
      rw [show wrapGo width (n + 1) haveLines (c :: rest) =
          (if (wrapStep width haveLines (c :: rest)).1.isEmpty then
            wrapGo width n haveLines (wrapStep width haveLines (c :: rest)).2
          else
            String.join (wrapStep width haveLines (c :: rest)).1 ::
              wrapGo width n true (wrapStep width haveLines (c :: rest)).2) from rfl]
        at hline
      by_cases hempty : (wrapStep width haveLines (c :: rest)).1.isEmpty
      · rw [if_pos hempty] at hline
        exact ih haveLines _ line hline
      · rw [if_neg hempty] at hline
        rcases List.mem_cons.mp hline with h | h
        · subst h
          rw [length_join]
          exact wrapStep_bound width hw haveLines (c :: rest)
        · exact ih true _ line h

/-- C3, counterexample.  The claim asserts that a single word longer
than the limit is placed alone, unbroken, on its own line.  With the
default `break_long_words=True` of `textwrap.wrap`, the 6-character word
`"abcdef"` wrapped at limit 3 is split into `["abc", "def"]` instead of
being kept whole, so the claim is false. -/
theorem c3_counterexample :
    pyWrap "abcdef" 3 = ["abc", "def"] ∧
      "abcdef" ∉ pyWrap "abcdef" 3 ∧ 3 < "abcdef".length := by
  decide

/-- C3, amended.  `_wrap_text` performs greedy wrapping over chunks
delimited at whitespace (and, per `break_on_hyphens`, hyphen)
boundaries, and a word longer than the limit is broken into pieces that
fit rather than placed unbroken: for every positive limit, every
produced line has at most `width` characters. -/
theorem c3_wrap_breaks_long_words (text : String) (width : Nat) (hw : 1 ≤ width) :
    ∀ line ∈ pyWrap text width, line.length ≤ width := by
  intro line hline
  exact wrapGo_line_length width hw _ false (splitChunks text) line hline

/-- C3 witness: the amended bound applied at a concrete input. -/
theorem c3_wrap_breaks_long_words_witness :
    1 ≤ 3 ∧ ∀ line ∈ pyWrap "abcdef" 3, line.length ≤ 3 :=
  ⟨by decide, c3_wrap_breaks_long_words "abcdef" 3 (by decide)⟩

theorem calcSizeGo_spec (bb : BBoxFn) (text : String) (maxW maxH : Nat)
    (fontPath : String) :
    ∀ (fuel size r : Nat), size ≤ fuel →
      calcSizeGo bb text maxW maxH fontPath fuel size = .ok r →
      20 ≤ r ∧ r ≤ max size 20 ∧
        ((r = 20 ∧ ∀ s, 20 < s → s ≤ size → (size - s) % 5 = 0 →
            fitTest bb text maxW maxH fontPath s = .ok false) ∨
         (20 < r ∧ r ≤ size ∧ (size - r) % 5 = 0 ∧
            fitTest bb text maxW maxH fontPath r = .ok true ∧
            ∀ s, r < s → s ≤ size → (size - s) % 5 = 0 →
              fitTest bb text maxW maxH fontPath s = .ok false)) := by
  intro fuel
  induction fuel with
  | zero =>
    intro size r hsz h
    interval_cases size
    simp only [calcSizeGo, Except.ok.injEq] at h
    subst h
    refine ⟨le_refl _, by omega, Or.inl ⟨rfl, ?_⟩⟩
    intro s hs1 hs2
    omega
  | succ n ih =>
    intro size r hsz h
    by_cases h20 : 20 < size
    · rw [calcSizeGo, if_pos h20] at h
      cases htest : fitTest bb text maxW maxH fontPath size with
      | error e => rw [htest] at h; cases h
      | ok b =>
        cases b with
        | true =>
          rw [htest] at h
          cases h
          refine ⟨by omega, by omega, Or.inr ⟨h20, le_refl _, by omega, htest, ?_⟩⟩
          intro s hs1 hs2
          omega
        | false =>
          rw [htest] at h
          obtain ⟨hr1, hr2, hcase⟩ := ih (size - 5) r (by omega) h
          refine ⟨hr1, by omega, ?_⟩
          rcases hcase with ⟨h20r, hall⟩ | ⟨hrg, hrle, hrmod, hrtest, hall⟩
          · refine Or.inl ⟨h20r, ?_⟩
            intro s hs1 hs2 hs3
            by_cases hss : s = size
            · exact hss ▸ htest
            · exact hall s hs1 (by omega) (by omega)
          · refine Or.inr ⟨hrg, by omega, by omega, hrtest, ?_⟩
            intro s hs1 hs2 hs3
            by_cases hss : s = size
            · exact hss ▸ htest
            · exact hall s hs1 (by omega) (by omega)
    · rw [calcSizeGo, if_neg h20] at h
      cases h
      refine ⟨le_refl _, by omega, Or.inl ⟨rfl, ?_⟩⟩
      intro s hs1 hs2
      omega

/-- C2, counterexample.  The claim asserts that the returned value
always lies in the interval `[20, initial_size]`; with
`initial_size = 19` the loop body never runs and the function returns
the floor 20, which is not in `[20, 19]`. -/
theorem c2_counterexample :
    calculateOptimalFontSize simpleBBox "hi" 1080 1080 "font.ttf" 19 = .ok 20 ∧
      ¬ (20 ≤ 19) := ⟨rfl, by decide⟩

/-- C2, amended.  Whenever `_calculate_optimal_font_size` returns a size
`r` (rather than raising), the search started at `initial_size` and
tested sizes `initial_size, initial_size - 5, …` while they exceed the
floor 20: `r` is the first tested size whose wrapped text has widest
line at most `max_width - 100` and line count times `(size + 10)` at
most `0.7 * max_height`, and `r = 20` when no tested size satisfies
both; the returned value lies in `[20, max initial_size 20]` (not
`[20, initial_size]`, which is empty for `initial_size < 20`). -/
theorem c2_font_size_search (bb : BBoxFn) (text : String) (maxW maxH : Nat)
    (fontPath : String) (initial r : Nat)
    (h : calculateOptimalFontSize bb text maxW maxH fontPath initial = .ok r) :
    20 ≤ r ∧ r ≤ max initial 20 ∧
      ((r = 20 ∧ ∀ s, 20 < s → s ≤ initial → (initial - s) % 5 = 0 →
          fitTest bb text maxW maxH fontPath s = .ok false) ∨
       (20 < r ∧ r ≤ initial ∧ (initial - r) % 5 = 0 ∧
          fitTest bb text maxW maxH fontPath r = .ok true ∧
          ∀ s, r < s → s ≤ initial → (initial - s) % 5 = 0 →
            fitTest bb text maxW maxH fontPath s = .ok false)) := by
  unfold calculateOptimalFontSize at h
  cases hgo : calcSizeGo bb text maxW maxH fontPath (initial + 1) initial with
  | error e => rw [hgo] at h; cases h
  | ok n =>
    rw [hgo] at h
    cases h
    exact calcSizeGo_spec bb text maxW maxH fontPath (initial + 1) initial r
      (by omega) hgo

/-- C2 witness: the amended characterisation applied at a concrete
input, where the search succeeds immediately at the initial size 72. -/
theorem c2_font_size_search_witness :
    20 ≤ 72 ∧ 72 ≤ max 72 20 :=
  have h := c2_font_size_search simpleBBox "hi" 1080 1080 "font.ttf" 72 72 rfl
  ⟨h.1, h.2.1⟩

/-- C9: for a call with shadow strength `s`, the draw passes submitted
to the layer are exactly `s` diagonal shadow copies at offsets
`(i, i)` for `i ∈ 1..s` filled with the shadow colour, then an
8-neighbour outline at every offset in `{-1, 0, 1}² \ {(0, 0)}` filled
solid black `(0, 0, 0, 255)`, and finally the main glyph fill at the
given position in `text_color` — in that order. -/
theorem c9_effect_passes (position : Int × Int) (text : String) (font : FTFont)
    (textColor : RGB) (shadowColor : RGBA) (s : Nat) :
    addTextWithEffects position text font textColor shadowColor s =
      (List.range s).map (fun i =>
        ({ pos := (position.1 + (Int.ofNat i + 1), position.2 + (Int.ofNat i + 1)),
           text := text, font := font, fill := Fill.rgba shadowColor } : PassOp)) ++
      (([(-1, -1), (-1, 0), (-1, 1), (0, -1), (0, 1), (1, -1), (1, 0), (1, 1)] :
          List (Int × Int)).map (fun off =>
        ({ pos := (position.1 + off.1, position.2 + off.2), text := text,
           font := font, fill := Fill.rgba (0, 0, 0, 255) } : PassOp))) ++
      [{ pos := position, text := text, font := font,
         fill := Fill.rgb textColor }] := by
  simp only [addTextWithEffects, List.map_map]
  rfl

/-- C4, counterexample.  The claim asserts that the background directory
is re-enumerated once its content changes and that repeated calls may
return different random picks from the current candidate set.  In the
code the `lru_cache` entry is keyed by the instance and stores the pick:
after a first call picks `bgs/a.png`, a second call on the same instance
returns `bgs/a.png` without reading the directory, even though the
directory now lists only `c.png` (so the stale pick is not in the
current candidate set), and even under a random draw that would have
chosen `b.png`. -/
theorem c4_counterexample :
    getRandomBackground "bgs" (some ["a.png", "b.png"]) (fun l => l.headD "") none
        = (.ok "bgs/a.png", some "bgs/a.png", true) ∧
      getRandomBackground "bgs" (some ["c.png"]) (fun l => l.headD "")
          (some "bgs/a.png")
        = (.ok "bgs/a.png", some "bgs/a.png", false) ∧
      "bgs/a.png" ∉ (["c.png"].filter isBgFile).map (fun f => "bgs" ++ "/" ++ f) ∧
      getRandomBackground "bgs" (some ["a.png", "b.png"]) (fun l => l.getLastD "")
          (some "bgs/a.png")
        = (.ok "bgs/a.png", some "bgs/a.png", false) ∧
      (["a.png", "b.png"].filter isBgFile).getLastD "" = "b.png" :=
  ⟨rfl, rfl, by decide, rfl, by decide⟩

/-- C4, amended.  The directory is enumerated at most once
per engine instance, not once per distinct directory content: the first successful
call lists the directory and caches the chosen path itself
(`lru_cache` keyed by the instance), and every later call returns that
same cached path with no directory read and no fresh random draw, even
if the directory content or the random source changes. -/
theorem c4_background_cache (dir : String) (listing : Option (List String))
    (choose : List String → String) (p : String) :
    getRandomBackground dir listing choose (some p) = (.ok p, some p, false) ∧
      (∀ l, listing = some l → (l.filter isBgFile).isEmpty = false →
        getRandomBackground dir listing choose none =
          (.ok (dir ++ "/" ++ choose (l.filter isBgFile)),
            some (dir ++ "/" ++ choose (l.filter isBgFile)), true)) := by
  constructor
  · rfl
  · intro l hl hne
    subst hl
    simp [getRandomBackground, hne]

/-- C4 witness: the amended cache behaviour at a concrete input. -/
theorem c4_background_cache_witness :
    getRandomBackground "bgs" (some ["a.png"]) (fun l => l.headD "")
        (some "bgs/a.png") = (.ok "bgs/a.png", some "bgs/a.png", false) ∧
      getRandomBackground "bgs" (some ["a.png"]) (fun l => l.headD "") none =
        (.ok ("bgs" ++ "/" ++ ((["a.png"].filter isBgFile).headD "")),
          some ("bgs" ++ "/" ++ ((["a.png"].filter isBgFile).headD "")), true) :=
  have h := c4_background_cache "bgs" (some ["a.png"]) (fun l => l.headD "")
    "bgs/a.png"
  ⟨h.1, h.2 ["a.png"] rfl (by decide)⟩

theorem assocGet_wf {κ α : Type} [DecidableEq κ] (compute : κ → α) :
    ∀ (cache : List (κ × α)), (∀ kv ∈ cache, kv.2 = compute kv.1) →
      ∀ (k : κ) (v : α), assocGet cache k = some v → v = compute k := by
  intro cache
  induction cache with
  | nil => intro _ k v h; cases h
  | cons kv rest ih =>
    intro hwf k v h
    obtain ⟨k2, v2⟩ := kv
    by_cases hk : k = k2
    · rw [assocGet, if_pos hk] at h
      cases h
      rw [hk]
      exact hwf (k2, v) (List.mem_cons_self _ _)
    · rw [assocGet, if_neg hk] at h
      exact ih (fun kv hm => hwf kv (List.mem_cons_of_mem _ hm)) k v h

/-- C6, counterexample.  The claim requires every cache lookup to equal
a fresh computation for the same key; the "background pick" cache (the
`lru_cache` on `_get_random_background`) stores a random draw, so the
cached value `bgs/a.png` differs from the fresh computation, which under
the current random source picks `bgs/b.png`. -/
theorem c6_counterexample :
    (getRandomBackground "bgs" (some ["a.png", "b.png"]) (fun l => l.getLastD "")
        (some "bgs/a.png")).1 = .ok "bgs/a.png" ∧
      (getRandomBackground "bgs" (some ["a.png", "b.png"]) (fun l => l.getLastD "")
        none).1 = .ok "bgs/b.png" ∧
      ("bgs/a.png" : String) ≠ "bgs/b.png" :=
  ⟨rfl, rfl, by decide⟩

/-- C6, amended.  For the font-at-size and gradient caches the claim
holds: a lookup for an identical key returns a value equal to what a
fresh computation for that key would produce, entries are never mutated
or dropped, and a repeated `_get_font` call with the same
`(font_path, size)` returns the cache-identical font object while
leaving the cache unchanged.  The background pick is not such a cache:
it stores one random draw, and its cached value can differ from a fresh
computation. -/
theorem c6_cache_semantics (cache : FontCache) (gcache : GradientCache)
    (path : String) (size : Nat) (gsize : Nat × Nat) (dir : String)
    (hwf : FontCacheWF cache) (hgwf : GradientCacheWF gcache) :
    (getFont cache path size).1 = truetype path size ∧
      FontCacheWF (getFont cache path size).2 ∧
      (∀ kv ∈ cache, kv ∈ (getFont cache path size).2) ∧
      getFont (getFont cache path size).2 path size =
        ((getFont cache path size).1, (getFont cache path size).2) ∧
      (getGradient gcache gsize dir).1 =
        createGradientOverlay gsize (0, 0, 0, 0) (0, 0, 0, 180) dir ∧
      GradientCacheWF (getGradient gcache gsize dir).2 ∧
      (∀ kv ∈ gcache, kv ∈ (getGradient gcache gsize dir).2) ∧
      (getRandomBackground "bgs" (some ["a.png", "b.png"]) (fun l => l.getLastD "")
          (some "bgs/a.png")).1 ≠
        (getRandomBackground "bgs" (some ["a.png", "b.png"]) (fun l => l.getLastD "")
          none).1 := by
  refine ⟨?_, ?_, ?_, ?_, ?_, ?_, ?_, ?_⟩
  · unfold getFont
    cases hget : assocGet cache (path, size) with
    | some f =>
      simpa using
        assocGet_wf (fun k => truetype k.1 k.2) cache
          (fun kv hm => hwf kv hm) (path, size) f hget
    | none => rfl
  · unfold getFont
    cases hget : assocGet cache (path, size) with
    | some f => exact hwf
    | none =>
      intro kv hkv
      rcases List.mem_cons.mp hkv with h | h
      · rw [h]
      · exact hwf kv h
  · unfold getFont
    cases hget : assocGet cache (path, size) with
    | some f => intro kv hkv; exact hkv
    | none => intro kv hkv; exact List.mem_cons_of_mem _ hkv
  · unfold getFont
    cases hget : assocGet cache (path, size) with
    | some f => simp [hget]
    | none => simp [assocGet]
  · unfold getGradient
    cases hget : assocGet gcache (gsize, dir) with
    | some g =>
      simpa using
        assocGet_wf
          (fun k => createGradientOverlay k.1 (0, 0, 0, 0) (0, 0, 0, 180) k.2)
          gcache (fun kv hm => hgwf kv hm) (gsize, dir) g hget
    | none => rfl
  · unfold getGradient
    cases hget : assocGet gcache (gsize, dir) with
    | some g => exact hgwf
    | none =>
      intro kv hkv
      rcases List.mem_cons.mp hkv with h | h
      · rw [h]
      · exact hgwf kv h
  · unfold getGradient
    cases hget : assocGet gcache (gsize, dir) with
    | some g => intro kv hkv; exact hkv
    | none => intro kv hkv; exact List.mem_cons_of_mem _ hkv
  · have h1 : (getRandomBackground "bgs" (some ["a.png", "b.png"])
        (fun l => l.getLastD "") (some "bgs/a.png")).1 = .ok "bgs/a.png" := rfl
    have h2 : (getRandomBackground "bgs" (some ["a.png", "b.png"])
        (fun l => l.getLastD "") none).1 = .ok "bgs/b.png" := rfl
    rw [h1, h2]
    intro h
    have := Except.ok.inj h
    simp at this

/-- C6 witness: the cache semantics applied to the empty caches. -/
theorem c6_cache_semantics_witness :
    (getFont [] "font.ttf" 72).1 = truetype "font.ttf" 72 ∧
      getFont (getFont [] "font.ttf" 72).2 "font.ttf" 72 =
        ((getFont [] "font.ttf" 72).1, (getFont [] "font.ttf" 72).2) :=
  have h := c6_cache_semantics [] [] "font.ttf" 72 (1080, 1080) "vertical"
    (by intro kv hkv; cases hkv) (by intro kv hkv; cases hkv)
  ⟨h.1, h.2.2.2.1⟩

/-! ### Claim C1: no up-front input validation -/

/-- Wrapping a string consisting of a single space yields no lines:
its only chunk is whitespace, which `drop_whitespace` removes. -/
theorem pyWrap_singleWs (w : Nat) (hw : 1 ≤ w) : pyWrap " " w = [] := by
  have hsplit : splitChunks " " = [" "] := rfl
  show wrapGo w (sumLens (splitChunks " ") + (splitChunks " ").length + 1) false
    (splitChunks " ") = []
  rw [hsplit]
  show wrapGo w 3 false [" "] = []
  have hg : greedyFill w [" "] [] 0 = ([" "], 1, []) := by
    show (if 0 + " ".length ≤ w then greedyFill w [] ([] ++ [" "]) (0 + " ".length)
      else ([], 0, [" "])) = ([" "], 1, [])
    rw [if_pos (by simpa using hw)]
    rfl
  have hstep : wrapStep w false [" "] = ([], []) := by
    unfold wrapStep
    simp only [Bool.false_and, Bool.false_eq_true, if_false, hg]
    rfl
  rw [show wrapGo w 3 false [" "] =
      (if (wrapStep w false [" "]).1.isEmpty then
        wrapGo w 2 false (wrapStep w false [" "]).2
      else String.join (wrapStep w false [" "]).1 ::
        wrapGo w 2 true (wrapStep w false [" "]).2) from rfl]
  rw [hstep]
  rfl

/-- On an all-whitespace text the size-fitting computation always
raises: either the wrap width is non-positive (`textwrap` rejects it) or
the wrapped line list is empty and `max()` raises. -/
theorem fitTest_ws_fails (bb : BBoxFn) (maxW maxH : Nat) (fontPath : String)
    (size : Nat) : ∃ e, fitTest bb " " maxW maxH fontPath size = .error e := by
  simp only [fitTest]
  by_cases hww : ((maxW : Int) - 100).fdiv (max 1 (bb fontPath size "A")) ≤ 0
  · have hwt : wrapText " " (((maxW : Int) - 100).fdiv (max 1 (bb fontPath size "A")))
        = .error (.valueError "テキストの折り返し処理中にエラーが発生しました"
          (some (.valueError "invalid width (must be > 0)" none))) := by
      unfold wrapText pyWrapE
      rw [if_pos hww]
    rw [hwt]
    exact ⟨_, rfl⟩
  · have h1 : 1 ≤ (((maxW : Int) - 100).fdiv (max 1 (bb fontPath size "A"))).toNat := by
      omega
    have hwt : wrapText " " (((maxW : Int) - 100).fdiv (max 1 (bb fontPath size "A")))
        = .ok [] := by
      unfold wrapText pyWrapE
      rw [if_neg hww]
      rw [pyWrap_singleWs _ h1]
    rw [hwt]
    exact ⟨_, rfl⟩

/-- `_calculate_optimal_font_size` on an all-whitespace text raises as
soon as the loop body runs. -/
theorem calc_ws_fails (bb : BBoxFn) (maxW maxH : Nat) (fontPath : String)
    (initial : Nat) (h20 : 20 < initial) :
    ∃ e, calculateOptimalFontSize bb " " maxW maxH fontPath initial = .error e := by
  obtain ⟨e, he⟩ := fitTest_ws_fails bb maxW maxH fontPath initial
  have hgo : calcSizeGo bb " " maxW maxH fontPath (initial + 1) initial
      = .error e := by
    rw [calcSizeGo, if_pos h20, he]
  unfold calculateOptimalFontSize
  rw [hgo]
  exact ⟨_, rfl⟩

/-- When the `lru_cache` entry of `_get_random_font` is cold, any call
reads (or attempts to read) the font directory. -/
theorem getRandomFont_cold_reads (dir : String) (listing : Option (List String))
    (choose : List String → String) :
    (getRandomFont dir listing choose none).2.2 = true := by
  unfold getRandomFont
  cases listing with
  | none => rfl
  | some l =>
    by_cases hne : (l.filter isFontFile).isEmpty
    · simp [hne]
    · simp [hne]

/-- C1, counterexample.  The claim requires a whitespace-only quote to
be rejected with `InvalidRequestError` before any asset resolution.  On
the concrete environment, `create_quote(" ")` resolves a random font
first (the trace is exactly the font-directory read), and then fails
with a `ValueError` raised inside `_calculate_optimal_font_size` (the
`max()` over an empty wrapped-line list) — there is no validation and
no `InvalidRequestError` anywhere in the code. -/
theorem c1_counterexample :
    (createQuote envA initState " " none (1080, 1080) none none none none
        (.presetName "modern")).1 =
      .error (.valueError "画像生成中にエラーが発生しました"
        (some (.valueError "フォントサイズの計算中にエラーが発生しました"
          (some (.valueError "max() arg is an empty sequence" none))))) ∧
      (createQuote envA initState " " none (1080, 1080) none none none none
        (.presetName "modern")).2.2 = [Ev.listFontDir] ∧
      isBlankStr " " = true :=
  ⟨rfl, rfl, rfl⟩

/-- C1, amended.  `create_quote` performs no input validation: for every
environment and instance state, a whitespace-only quote (with the
default font, size, background and style arguments) makes the call fail
with a `ValueError` (never an up-front `InvalidRequestError`, which does
not exist in the code), and on a cold instance the font directory is
read — i.e. asset resolution happens — before the failure. -/
theorem c1_no_upfront_validation (env : Env) (st : MiqState) :
    (∃ e, (createQuote env st " " none (1080, 1080) none none none none
        (.presetName "modern")).1 = .error e) ∧
      (st.fontPick = none →
        Ev.listFontDir ∈ (createQuote env st " " none (1080, 1080) none none none
          none (.presetName "modern")).2.2) := by
  have hread : st.fontPick = none →
      (getRandomFont env.fontsDir env.fontsList env.chooseFont st.fontPick).2.2
        = true := by
    intro hc
    rw [hc]
    exact getRandomFont_cold_reads _ _ _
  cases hres : (getRandomFont env.fontsDir env.fontsList env.chooseFont
      st.fontPick).1 with
  | error e =>
    constructor
    · exact ⟨outerWrap e, by simp [createQuote, resolveFontPath, hres]⟩
    · intro hc
      simp [createQuote, resolveFontPath, hres, hread hc]
  | ok fontPath =>
    obtain ⟨e, he⟩ := calc_ws_fails env.bbox 1080 1080 fontPath 64 (by omega)
    have hinit : (resolveStyle (.presetName "modern")).font_size.getD 72 = 64 := rfl
    constructor
    · refine ⟨outerWrap e, ?_⟩
      simp only [createQuote, resolveFontPath, hres, hinit]
      rw [he]
    · intro hc
      simp only [createQuote, resolveFontPath, hres, hinit]
      rw [he]
      simp [hread hc]

/-- C1 witness: the amended behaviour on the concrete environment. -/
theorem c1_no_upfront_validation_witness :
    (∃ e, (createQuote envA initState " " none (1080, 1080) none none none none
        (.presetName "modern")).1 = .error e) ∧
      Ev.listFontDir ∈ (createQuote envA initState " " none (1080, 1080) none none
        none none (.presetName "modern")).2.2 :=
  have h := c1_no_upfront_validation envA initState
  ⟨h.1, h.2 rfl⟩

/-! ### Claim C5: missing background assets -/

/-- C5: when the background directory is missing or holds no image
files, and `create_quote` is invoked without an explicit background (on
an instance that has not cached a background pick), the call fails with
an error whose root cause is the `FileNotFoundError` of the asset
lookup — the modelled `NoAssetsError` — propagated through the
`ValueError` wrappers, and the trace contains no draw call at all: no
text is rendered and no partial image is returned. -/
theorem c5_no_assets_propagates (env : Env) (st : MiqState) (quote : String)
    (author : Option String) (osize : Nat × Nat) (fp : String) (fs : Nat)
    (tc : Option RGB) (sty : StyleSel)
    (hempty : env.backgroundsList = none ∨
      ∃ l, env.backgroundsList = some l ∧ l.filter isBgFile = [])
    (hcold : st.bgPick = none) :
    (∃ m e, (createQuote env st quote author osize (some fp) (some fs) tc none
        sty).1 = .error e ∧ rootCause e = .fileNotFound m) ∧
      ∀ op, Ev.draw op ∉ (createQuote env st quote author osize (some fp)
        (some fs) tc none sty).2.2 := by
  rcases hempty with hnone | ⟨l, hl, hfilter⟩
  · have hbg : getRandomBackground env.backgroundsDir env.backgroundsList
        env.chooseBg st.bgPick =
        (.error (.valueError "背景画像の取得中にエラーが発生しました"
          (some (.fileNotFound "[Errno 2] No such file or directory"))), none,
          true) := by
      rw [hcold, hnone]
      rfl
    constructor
    · refine ⟨"[Errno 2] No such file or directory",
        outerWrap (.valueError "背景画像の取得中にエラーが発生しました"
          (some (.fileNotFound "[Errno 2] No such file or directory"))), ?_, rfl⟩
      simp only [createQuote, resolveFontPath, prepareBackground, hbg]
    · intro op
      simp only [createQuote, resolveFontPath, prepareBackground, hbg]
      simp
  · have hbg : getRandomBackground env.backgroundsDir env.backgroundsList
        env.chooseBg st.bgPick =
        (.error (.valueError "背景画像の取得中にエラーが発生しました"
          (some (.fileNotFound "背景画像が見つかりません。"))), none, true) := by
      rw [hcold, hl]
      simp only [getRandomBackground, hfilter]
      rfl
    constructor
    · refine ⟨"背景画像が見つかりません。",
        outerWrap (.valueError "背景画像の取得中にエラーが発生しました"
          (some (.fileNotFound "背景画像が見つかりません。"))), ?_, rfl⟩
      simp only [createQuote, resolveFontPath, prepareBackground, hbg]
    · intro op
      simp only [createQuote, resolveFontPath, prepareBackground, hbg]
      simp

/-- C5 witness: the propagation applied to a concrete environment whose
background directory is empty. -/
theorem c5_no_assets_propagates_witness :
    (∃ m e, (createQuote { envA with backgroundsList := some [] } initState
        "Hello" none (1080, 1080) (some "fonts/f.ttf") (some 50) none none
        (.presetName "minimal")).1 = .error e ∧ rootCause e = .fileNotFound m) ∧
      ∀ op, Ev.draw op ∉ (createQuote { envA with backgroundsList := some [] }
        initState "Hello" none (1080, 1080) (some "fonts/f.ttf") (some 50) none
        none (.presetName "minimal")).2.2 :=
  c5_no_assets_propagates { envA with backgroundsList := some [] } initState
    "Hello" none (1080, 1080) "fonts/f.ttf" 50 none (.presetName "minimal")
    (Or.inr ⟨[], rfl, rfl⟩) rfl

/-! ### Claim C7: output dimensions and Scenario A -/

theorem convertRGBA_dims (i : Img) :
    (convertRGBA i).w = i.w ∧ (convertRGBA i).h = i.h ∧
      (convertRGBA i).mode = "RGBA" := by
  unfold convertRGBA
  split
  · next hm => exact ⟨rfl, rfl, hm⟩
  · exact ⟨rfl, rfl, rfl⟩

theorem enhanceBackground_dims (env : Env) (g : GradientCache) (bg : Img)
    (style : StyleDict) :
    (enhanceBackground env g bg style).1.w = bg.w ∧
      (enhanceBackground env g bg style).1.h = bg.h ∧
      (enhanceBackground env g bg style).1.mode = "RGBA" := by
  have hc := convertRGBA_dims
    (blurImg env.blurAlpha (enhanceColor (enhanceBrightness (enhanceContrast bg))))
  unfold enhanceBackground
  split
  · exact ⟨hc.1, hc.2.1, rfl⟩
  · exact ⟨hc.1, hc.2.1, rfl⟩

theorem prepareBackground_dims (env : Env) (st : MiqState)
    (bgA : Option Img) (osize : Nat × Nat) (style : StyleDict) (b : Img)
    (h : (prepareBackground env st bgA osize style).1 = .ok b) :
    b.w = osize.1 ∧ b.h = osize.2 ∧ b.mode = "RGBA" := by
  unfold prepareBackground at h
  cases bgA with
  | some im =>
    simp only [Except.ok.injEq] at h
    have hd := enhanceBackground_dims env st.gradientCache
      (resizeImg env.resampleAlpha (convertRGBA im) osize) style
    rw [h] at hd
    simpa [resizeImg] using hd
  | none =>
    cases hres : (getRandomBackground env.backgroundsDir env.backgroundsList
        env.chooseBg st.bgPick).1 with
    | error e =>
      simp only [hres] at h
      simp at h
    | ok path =>
      cases him : env.openImage path with
      | none =>
        simp only [hres, him] at h
        simp at h
      | some im =>
        simp only [hres, him, Except.ok.injEq] at h
        have hd := enhanceBackground_dims env st.gradientCache
          (resizeImg env.resampleAlpha (convertRGBA im) osize) style
        rw [h] at hd
        simpa [resizeImg] using hd

/-- C7: the output image's dimensions equal the requested `output_size`
and its mode is RGBA, regardless of the input background's dimensions;
and Scenario A — quote `"Hello world"`, no author, style `"minimal"`,
output 1080×1080 — yields a 1080×1080 RGBA image with no author line
drawn and overlay opacity 120. -/
theorem c7_output_dimensions :
    (∀ env st quote author osize fpA fsA tcA bgA sty img,
      (createQuote env st quote author osize fpA fsA tcA bgA sty).1 = .ok img →
      img.w = osize.1 ∧ img.h = osize.2 ∧ img.mode = "RGBA") ∧
      ((createQuote envA initState "Hello world" none (1080, 1080) none none none
          none (.presetName "minimal")).1.toOption.map Img.w = some 1080 ∧
        (createQuote envA initState "Hello world" none (1080, 1080) none none none
          none (.presetName "minimal")).1.toOption.map Img.h = some 1080 ∧
        (createQuote envA initState "Hello world" none (1080, 1080) none none none
          none (.presetName "minimal")).1.toOption.map Img.mode = some "RGBA" ∧
        Ev.overlay 120 ∈ (createQuote envA initState "Hello world" none
          (1080, 1080) none none none none (.presetName "minimal")).2.2 ∧
        ∀ op, Ev.draw op ∈ (createQuote envA initState "Hello world" none
          (1080, 1080) none none none none (.presetName "minimal")).2.2 →
          op.element ≠ Element.author) := by
  constructor
  · intro env st quote author osize fpA fsA tcA bgA sty img h
    simp only [createQuote] at h
    split at h
    · simp at h
    · split at h
      · simp at h
      · split at h
        · simp at h
        · next background heq =>
          have hd := prepareBackground_dims env _ bgA osize (resolveStyle sty)
            background heq
          split at h
          · simp only [Except.ok.injEq] at h
            subst h
            exact ⟨by simpa [applyRoundedCorners, alphaComposite] using hd.1,
              by simpa [applyRoundedCorners, alphaComposite] using hd.2.1, rfl⟩
          · simp only [Except.ok.injEq] at h
            subst h
            exact ⟨by simpa [alphaComposite] using hd.1,
              by simpa [alphaComposite] using hd.2.1, rfl⟩
  · refine ⟨rfl, rfl, rfl, by decide, ?_⟩
    intro op hop
    have hall : ((createQuote envA initState "Hello world" none (1080, 1080) none
        none none none (.presetName "minimal")).2.2.all fun e =>
          match e with
          | Ev.draw o => decide (o.element ≠ Element.author)
          | _ => true) = true := by decide
    have := List.all_eq_true.mp hall (Ev.draw op) hop
    simpa using this

/-- C7 witness: the dimension law applied to the successful Scenario A
run. -/
theorem c7_output_dimensions_witness :
    ∃ img, (createQuote envA initState "Hello world" none (1080, 1080) none none
        none none (.presetName "minimal")).1 = .ok img ∧
      img.w = 1080 ∧ img.h = 1080 ∧ img.mode = "RGBA" := by
  cases h : (createQuote envA initState "Hello world" none (1080, 1080) none none
      none none (.presetName "minimal")).1 with
  | error e =>
    have hok : (createQuote envA initState "Hello world" none (1080, 1080) none
        none none none (.presetName "minimal")).1.isOk = true := rfl
    rw [h] at hok
    cases hok
  | ok img =>
    exact ⟨img, rfl,
      c7_output_dimensions.1 envA initState "Hello world" none (1080, 1080) none
        none none none (.presetName "minimal") img h⟩

/-! ### Claim C10: shadow strengths per drawn element -/

theorem resolveFontPath_no_draw (env : Env) (st : MiqState)
    (fpA : Option String) (op : DrawOp) :
    Ev.draw op ∉ (resolveFontPath env st fpA).2.2 := by
  unfold resolveFontPath
  cases fpA with
  | some p => simp
  | none =>
    split
    · simp
    · simp

theorem enhanceBackground_no_draw (env : Env) (g : GradientCache) (bg : Img)
    (style : StyleDict) (op : DrawOp) :
    Ev.draw op ∉ (enhanceBackground env g bg style).2.2 := by
  unfold enhanceBackground
  split
  · simp
  · simp

theorem prepareBackground_no_draw (env : Env) (st : MiqState)
    (bgA : Option Img) (osize : Nat × Nat) (style : StyleDict) (op : DrawOp) :
    Ev.draw op ∉ (prepareBackground env st bgA osize style).2.2 := by
  unfold prepareBackground
  cases bgA with
  | some im => exact enhanceBackground_no_draw env _ _ style op
  | none =>
    cases hres : (getRandomBackground env.backgroundsDir env.backgroundsList
        env.chooseBg st.bgPick).1 with
    | error e =>
      simp only [hres]
      split <;> simp
    | ok path =>
      cases him : env.openImage path with
      | none =>
        simp only [hres, him]
        split <;> simp
      | some im =>
        simp only [hres, him]
        intro hmem
        rcases List.mem_append.mp hmem with h | h
        · revert h
          split <;> simp
        · exact enhanceBackground_no_draw env _ _ style op h

/-- Every draw event in a `create_quote` trace comes from the text
phase: the drawn op belongs to `renderDrawOps` for the resolved style
and some resolved font path, size and colours. -/
theorem createQuote_draw_ops (env : Env) (st : MiqState) (quote : String)
    (author : Option String) (osize : Nat × Nat) (fpA : Option String)
    (fsA : Option Nat) (tcA : Option RGB) (bgA : Option Img) (sty : StyleSel)
    (op : DrawOp)
    (hop : Ev.draw op ∈ (createQuote env st quote author osize fpA fsA tcA bgA
      sty).2.2) :
    ∃ fontPath fontSize textColor shadowColor,
      op ∈ renderDrawOps env (resolveStyle sty) quote author osize.1 osize.2
        fontPath fontSize textColor shadowColor := by
  simp only [createQuote] at hop
  split at hop
  · exact absurd hop (resolveFontPath_no_draw env st fpA op)
  · split at hop
    · exact absurd hop (resolveFontPath_no_draw env st fpA op)
    · split at hop
      · rcases List.mem_append.mp hop with h | h
        · exact absurd h (resolveFontPath_no_draw env st fpA op)
        · exact absurd h (prepareBackground_no_draw env _ bgA osize _ op)
      · split at hop
        · rcases List.mem_append.mp hop with h | h
          · rcases List.mem_append.mp h with h2 | h2
            · rcases List.mem_append.mp h2 with h3 | h3
              · exact absurd h3 (resolveFontPath_no_draw env st fpA op)
              · exact absurd h3 (prepareBackground_no_draw env _ bgA osize _ op)
            · obtain ⟨op2, hmem, heq⟩ := List.mem_map.mp h2
              cases heq
              exact ⟨_, _, _, _, hmem⟩
          · simp at h
        · rcases List.mem_append.mp hop with h | h
          · rcases List.mem_append.mp h with h2 | h2
            · exact absurd h2 (resolveFontPath_no_draw env st fpA op)
            · exact absurd h2 (prepareBackground_no_draw env _ bgA osize _ op)
          · obtain ⟨op2, hmem, heq⟩ := List.mem_map.mp h
            cases heq
            exact ⟨_, _, _, _, hmem⟩

/-- The shadow strength passed for each element drawn by the text
phase: quote lines use `style.get("shadow_strength", 2)`, the quote
mark and the author line use the draw routine's default 3, and the
watermark passes 1 explicitly. -/
theorem renderDrawOps_strengths (env : Env) (styleS : StyleDict) (quote : String)
    (author : Option String) (width height : Nat) (fontPath : String)
    (fontSize : Nat) (textColor : RGB) (shadowColor : RGBA) (op : DrawOp)
    (hop : op ∈ renderDrawOps env styleS quote author width height fontPath
      fontSize textColor shadowColor) :
    (op.element = .quoteMark → op.strength = 3) ∧
      (op.element = .quoteLine → op.strength = styleS.shadow_strength.getD 2) ∧
      (op.element = .author → op.strength = 3) ∧
      (op.element = .watermark → op.strength = 1) := by
  simp only [renderDrawOps] at hop
  rcases List.mem_cons.mp hop with h | h
  · subst h
    exact ⟨fun _ => rfl, by intro he; simp at he, by intro he; simp at he,
      by intro he; simp at he⟩
  · rcases List.mem_append.mp h with h2 | h2
    · rcases List.mem_append.mp h2 with h3 | h3
      · obtain ⟨p, hp, heq⟩ := List.mem_map.mp h3
        subst heq
        exact ⟨by intro he; simp at he, fun _ => rfl, by intro he; simp at he,
          by intro he; simp at he⟩
      · cases author with
        | none => simp at h3
        | some a =>
          by_cases ha : a = ""
          · simp [ha] at h3
          · simp only [ha, if_false] at h3
            rcases List.mem_singleton.mp h3 with rfl
            exact ⟨by intro he; simp at he, by intro he; simp at he, fun _ => rfl,
              by intro he; simp at he⟩
    · rcases List.mem_singleton.mp h2 with rfl
      exact ⟨by intro he; simp at he, by intro he; simp at he, by intro he; simp at he,
        fun _ => rfl⟩

/-- C10: the three built-in presets define `shadow_opacity` but no
`shadow_strength`, so every wrapped quote line is drawn with the
fallback strength 2, while the quote mark and the author line use the
draw routine's default strength 3 and the watermark uses strength 1. -/
theorem c10_preset_shadow_strengths :
    (∀ name, name = "modern" ∨ name = "minimal" ∨ name = "bold" →
      (resolveStyle (.presetName name)).shadow_strength = none ∧
        (resolveStyle (.presetName name)).shadow_opacity ≠ none) ∧
      ∀ name env st quote author osize fpA fsA tcA bgA op,
        (name = "modern" ∨ name = "minimal" ∨ name = "bold") →
        Ev.draw op ∈ (createQuote env st quote author osize fpA fsA tcA bgA
          (.presetName name)).2.2 →
        (op.element = .quoteLine → op.strength = 2) ∧
          (op.element = .quoteMark → op.strength = 3) ∧
          (op.element = .author → op.strength = 3) ∧
          (op.element = .watermark → op.strength = 1) := by
  have hpre : ∀ name, name = "modern" ∨ name = "minimal" ∨ name = "bold" →
      (resolveStyle (.presetName name)).shadow_strength = none ∧
        (resolveStyle (.presetName name)).shadow_opacity ≠ none := by
    intro name hname
    rcases hname with rfl | rfl | rfl
    · exact ⟨rfl, by decide⟩
    · exact ⟨rfl, by decide⟩
    · exact ⟨rfl, by decide⟩
  refine ⟨hpre, ?_⟩
  intro name env st quote author osize fpA fsA tcA bgA op hname hop
  obtain ⟨fp, fs, tc, sc, hmem⟩ := createQuote_draw_ops env st quote author osize
    fpA fsA tcA bgA (.presetName name) op hop
  have hs := renderDrawOps_strengths env (resolveStyle (.presetName name)) quote
    author osize.1 osize.2 fp fs tc sc op hmem
  have hd2 : (resolveStyle (.presetName name)).shadow_strength.getD 2 = 2 := by
    rw [(hpre name hname).1]
    rfl
  exact ⟨fun he => hd2 ▸ hs.2.1 he, hs.1, hs.2.2.1, hs.2.2.2⟩

/-- C10 witness: the strengths observed on a concrete run with the
`"minimal"` preset — the wrapped line `"Hello world"` is drawn with
strength 2. -/
theorem c10_preset_shadow_strengths_witness :
    (resolveStyle (.presetName "minimal")).shadow_strength = none ∧
      witnessLineOp.strength = 2 :=
  have h := c10_preset_shadow_strengths
  have hop : Ev.draw witnessLineOp ∈
      (createQuote envA initState "Hello world" none (1080, 1080) none none none
        none (.presetName "minimal")).2.2 := by decide
  ⟨(h.1 "minimal" (Or.inr (Or.inl rfl))).1,
    (h.2 "minimal" envA initState "Hello world" none (1080, 1080) none none none
      none _ (Or.inr (Or.inl rfl)) hop).1 rfl⟩

theorem inCircle_false (r u v : Nat)
    (hd : 4 * (r : Int) ^ 2 < (2 * (u : Int) + 1 - 2 * (r : Int)) ^ 2 +
      (2 * (v : Int) + 1 - 2 * (r : Int)) ^ 2) :
    inCircle r u v = false := by
  unfold inCircle
  rw [decide_eq_false_iff_not]
  intro hle
  have h4 : (2 * (r : Int)) ^ 2 = 4 * (r : Int) ^ 2 := by ring
  rw [h4] at hle
  linarith

/-- The mask is zero at every pixel of the region the claim describes
(when the corner squares do not overlap). -/
theorem roundedMask_outside (w h r x y : Nat) (hw : 2 * r ≤ w) (hh : 2 * r ≤ h)
    (hout : specOutsideRounded w h r x y) : roundedMaskAlpha w h r x y = 0 := by
  rcases hout with ⟨hx, hy, hd⟩ | ⟨hx1, hx2, hy, hd⟩ | ⟨hx, hy1, hy2, hd⟩ |
    ⟨hx1, hx2, hy1, hy2, hd⟩
  · have h1 : ¬ (w - r ≤ x ∧ h - r ≤ y) := by omega
    have h2 : ¬ (x < r ∧ h - r ≤ y) := by omega
    have h3 : ¬ (w - r ≤ x ∧ y < r) := by omega
    rw [roundedMaskAlpha, if_neg h1, if_neg h2, if_neg h3, if_pos ⟨hx, hy⟩]
    rw [circlePix, inCircle_false r x y hd]
    rfl
  · have h1 : ¬ (w - r ≤ x ∧ h - r ≤ y) := by omega
    have h2 : ¬ (x < r ∧ h - r ≤ y) := by omega
    rw [roundedMaskAlpha, if_neg h1, if_neg h2, if_pos ⟨hx1, hy⟩]
    have hbase : (2 * ((x - (w - r) + r : Nat) : Int) + 1 - 2 * (r : Int)) =
        2 * (x : Int) + 1 - 2 * ((w : Int) - (r : Int)) := by omega
    have : inCircle r (x - (w - r) + r) y = false := by
      unfold inCircle
      rw [decide_eq_false_iff_not]
      intro hle
      rw [hbase] at hle
      have h4 : (2 * (r : Int)) ^ 2 = 4 * (r : Int) ^ 2 := by ring
      rw [h4] at hle
      linarith
    rw [circlePix, this]
    rfl
  · have h1 : ¬ (w - r ≤ x ∧ h - r ≤ y) := by omega
    rw [roundedMaskAlpha, if_neg h1, if_pos ⟨hx, hy1⟩]
    have hbase : (2 * ((y - (h - r) + r : Nat) : Int) + 1 - 2 * (r : Int)) =
        2 * (y : Int) + 1 - 2 * ((h : Int) - (r : Int)) := by omega
    have : inCircle r x (y - (h - r) + r) = false := by
      unfold inCircle
      rw [decide_eq_false_iff_not]
      intro hle
      rw [hbase] at hle
      have h4 : (2 * (r : Int)) ^ 2 = 4 * (r : Int) ^ 2 := by ring
      rw [h4] at hle
      linarith
    rw [circlePix, this]
    rfl
  · rw [roundedMaskAlpha, if_pos ⟨hx1, hy1⟩]
    have hbx : (2 * ((x - (w - r) + r : Nat) : Int) + 1 - 2 * (r : Int)) =
        2 * (x : Int) + 1 - 2 * ((w : Int) - (r : Int)) := by omega
    have hby : (2 * ((y - (h - r) + r : Nat) : Int) + 1 - 2 * (r : Int)) =
        2 * (y : Int) + 1 - 2 * ((h : Int) - (r : Int)) := by omega
    have : inCircle r (x - (w - r) + r) (y - (h - r) + r) = false := by
      unfold inCircle
      rw [decide_eq_false_iff_not]
      intro hle
      rw [hbx, hby] at hle
      have h4 : (2 * (r : Int)) ^ 2 = 4 * (r : Int) ^ 2 := by ring
      rw [h4] at hle
      linarith
    rw [circlePix, this]
    rfl

/-- Away from the four corner squares the mask is fully opaque: the
straight edges are unmasked. -/
theorem roundedMask_straight (w h r x y : Nat)
    (hse : specStraightEdge w h r x y) : roundedMaskAlpha w h r x y = 255 := by
  unfold specStraightEdge at hse
  rw [roundedMaskAlpha,
    if_neg (fun hc => hse ⟨Or.inr hc.1, Or.inr hc.2⟩),
    if_neg (fun hc => hse ⟨Or.inl hc.1, Or.inr hc.2⟩),
    if_neg (fun hc => hse ⟨Or.inr hc.1, Or.inl hc.2⟩),
    if_neg (fun hc => hse ⟨Or.inl hc.1, Or.inl hc.2⟩)]

theorem alphaOver_opaque (sa : Nat) (hsa : sa ≤ 255) : alphaOver sa 255 = 255 := by
  unfold alphaOver
  have hdiv : 255 * (255 - sa) / 255 = 255 - sa :=
    Nat.mul_div_cancel_left _ (by norm_num)
  omega

theorem interpA_le (sa ea n y : Nat) : interpA sa ea n y ≤ max sa ea := by
  unfold interpA
  split
  · exact le_max_left _ _
  · next hn =>
    have h1 : sa * (n - min y n) + ea * min y n ≤ max sa ea * n := by
      have hsa : sa * (n - min y n) ≤ max sa ea * (n - min y n) :=
        Nat.mul_le_mul_right _ (le_max_left _ _)
      have hea : ea * min y n ≤ max sa ea * min y n :=
        Nat.mul_le_mul_right _ (le_max_right _ _)
      have : max sa ea * (n - min y n) + max sa ea * min y n = max sa ea * n := by
        rw [← Nat.mul_add]
        congr 1
        have := min_le_right y n
        omega
      omega
    calc (sa * (n - min y n) + ea * min y n) / n ≤ max sa ea * n / n :=
          Nat.div_le_div_right h1
      _ = max sa ea := Nat.mul_div_cancel _ (Nat.pos_of_ne_zero hn)

/-- Every sample of a gradient overlay built by
`_create_gradient_overlay(size, (0,0,0,0), (0,0,0,180), dir)` is at
most 255. -/
theorem createGradientOverlay_le (size : Nat × Nat) (direction : String)
    (x y : Nat) :
    (createGradientOverlay size (0, 0, 0, 0) (0, 0, 0, 180) direction).alpha x y
      ≤ 255 := by
  show (if direction = "vertical" then interpA 0 180 (size.2 - 1) y
    else interpA 0 180 (size.1 - 1) x) ≤ 255
  split
  · exact le_trans (interpA_le _ _ _ _) (by norm_num)
  · exact le_trans (interpA_le _ _ _ _) (by norm_num)

/-- The gradient produced by the lookup-or-insert on a well-formed
cache is byte-ranged. -/
theorem getGradient_le (g : GradientCache) (hg : GradientCacheWF g)
    (size : Nat × Nat) (direction : String) (x y : Nat) :
    (getGradient g size direction).1.alpha x y ≤ 255 := by
  unfold getGradient
  cases hget : assocGet g (size, direction) with
  | some gr =>
    have hwf := assocGet_wf
      (fun k => createGradientOverlay k.1 (0, 0, 0, 0) (0, 0, 0, 180) k.2) g
      (fun kv hm => hg kv hm) _ gr hget
    subst hwf
    exact createGradientOverlay_le size direction x y
  | none => exact createGradientOverlay_le size direction x y

theorem enhanceBackground_alpha_opaque (env : Env) (hA : AlphaFaithful env)
    (g : GradientCache) (hg : GradientCacheWF g) (bg : Img) (style : StyleDict)
    (hbg : ∀ x y, bg.alpha x y = 255)
    (hop : style.overlay_opacity.getD 160 ≤ 255) :
    ∀ x y, (enhanceBackground env g bg style).1.alpha x y = 255 := by
  intro x y
  simp only [enhanceBackground]
  set B := blurImg env.blurAlpha (enhanceColor (enhanceBrightness
    (enhanceContrast bg))) with hB
  set C := alphaComposite (convertRGBA B)
    (newRGBA B.w B.h (0, 0, 0, style.overlay_opacity.getD 160)) with hC
  have hCa : ∀ u v, C.alpha u v = 255 := by
    intro u v
    show alphaOver (style.overlay_opacity.getD 160) ((convertRGBA B).alpha u v)
      = 255
    have hconvB : (convertRGBA B).alpha u v = 255 := by
      unfold convertRGBA
      split
      · exact hA.2.1 _ 255 hbg u v
      · rfl
    rw [hconvB]
    exact alphaOver_opaque _ hop
  split
  · show alphaOver ((getGradient g (C.w, C.h) "vertical").1.alpha x y)
      (C.alpha x y) = 255
    rw [hCa x y]
    exact alphaOver_opaque _ (getGradient_le g hg (C.w, C.h) "vertical" x y)
  · exact hCa x y

theorem prepareBackground_alpha_opaque (env : Env) (hA : AlphaFaithful env)
    (st : MiqState) (hg : GradientCacheWF st.gradientCache) (bgA : Option Img)
    (osize : Nat × Nat) (style : StyleDict) (b : Img)
    (hsrc1 : ∀ p im, env.openImage p = some im → im.mode ≠ "RGBA")
    (hsrc2 : ∀ im, bgA = some im → im.mode ≠ "RGBA")
    (hop : style.overlay_opacity.getD 160 ≤ 255)
    (h : (prepareBackground env st bgA osize style).1 = .ok b) :
    ∀ x y, b.alpha x y = 255 := by
  have hsrc : ∀ im : Img, im.mode ≠ "RGBA" →
      ∀ x y, (resizeImg env.resampleAlpha (convertRGBA im) osize).alpha x y
        = 255 := by
    intro im hm x y
    show env.resampleAlpha (convertRGBA im).alpha _ _ x y = 255
    refine hA.1 _ 255 ?_ _ _ x y
    intro x2 y2
    unfold convertRGBA
    rw [if_neg hm]
  unfold prepareBackground at h
  cases bgA with
  | some im =>
    simp only [Except.ok.injEq] at h
    subst h
    exact enhanceBackground_alpha_opaque env hA _ hg _ style
      (hsrc im (hsrc2 im rfl)) hop
  | none =>
    cases hres : (getRandomBackground env.backgroundsDir env.backgroundsList
        env.chooseBg st.bgPick).1 with
    | error e =>
      simp only [hres] at h
      simp at h
    | ok path =>
      cases him : env.openImage path with
      | none =>
        simp only [hres, him] at h
        simp at h
      | some im =>
        simp only [hres, him, Except.ok.injEq] at h
        subst h
        exact enhanceBackground_alpha_opaque env hA _ hg _ style
          (hsrc im (hsrc1 path im him)) hop

theorem resolveFontPath_no_rounded (env : Env) (st : MiqState)
    (fpA : Option String) (rad : Nat) :
    Ev.rounded rad ∉ (resolveFontPath env st fpA).2.2 := by
  unfold resolveFontPath
  cases fpA with
  | some p => simp
  | none =>
    split
    · simp
    · simp

theorem enhanceBackground_no_rounded (env : Env) (g : GradientCache) (bg : Img)
    (style : StyleDict) (rad : Nat) :
    Ev.rounded rad ∉ (enhanceBackground env g bg style).2.2 := by
  unfold enhanceBackground
  split
  · simp
  · simp

theorem prepareBackground_no_rounded (env : Env) (st : MiqState)
    (bgA : Option Img) (osize : Nat × Nat) (style : StyleDict) (rad : Nat) :
    Ev.rounded rad ∉ (prepareBackground env st bgA osize style).2.2 := by
  unfold prepareBackground
  cases bgA with
  | some im => exact enhanceBackground_no_rounded env _ _ style rad
  | none =>
    cases hres : (getRandomBackground env.backgroundsDir env.backgroundsList
        env.chooseBg st.bgPick).1 with
    | error e =>
      simp only [hres]
      split <;> simp
    | ok path =>
      cases him : env.openImage path with
      | none =>
        simp only [hres, him]
        split <;> simp
      | some im =>
        simp only [hres, him]
        intro hmem
        rcases List.mem_append.mp hmem with h | h
        · revert h
          split <;> simp
        · exact enhanceBackground_no_rounded env _ _ style rad h

theorem resolveFontPath_gradientCache (env : Env) (st : MiqState)
    (fpA : Option String) :
    (resolveFontPath env st fpA).2.1.gradientCache = st.gradientCache := by
  unfold resolveFontPath
  cases fpA with
  | some p => rfl
  | none => rfl

/-- Structure of every successful `create_quote` run: the returned image
is the text layer composited over the prepared background, with the
corner mask applied exactly when the resolved style's `rounded_corners`
flag is set (radius 5% of the smaller output dimension), and the trace
records a `rounded` event exactly in that case. -/
theorem createQuote_ok_shape (env : Env) (st : MiqState) (quote : String)
    (author : Option String) (osize : Nat × Nat) (fpA : Option String)
    (fsA : Option Nat) (tcA : Option RGB) (bgA : Option Img) (sty : StyleSel)
    (img : Img)
    (hok : (createQuote env st quote author osize fpA fsA tcA bgA sty).1
      = .ok img) :
    ∃ (st1 : MiqState) (background : Img) (ops : List DrawOp),
      st1.gradientCache = st.gradientCache ∧
      (prepareBackground env st1 bgA osize (resolveStyle sty)).1
        = .ok background ∧
      (((resolveStyle sty).rounded_corners.getD false = false ∧
        img = alphaComposite background
          { w := background.w, h := background.h, mode := "RGBA",
            alpha := env.textRaster ops } ∧
        ∀ rad, Ev.rounded rad ∉
          (createQuote env st quote author osize fpA fsA tcA bgA sty).2.2) ∨
       ((resolveStyle sty).rounded_corners.getD false = true ∧
        img = applyRoundedCorners (alphaComposite background
          { w := background.w, h := background.h, mode := "RGBA",
            alpha := env.textRaster ops }) (min osize.1 osize.2 * 5 / 100) ∧
        Ev.rounded (min osize.1 osize.2 * 5 / 100) ∈
          (createQuote env st quote author osize fpA fsA tcA bgA sty).2.2)) := by
  cases hres1 : (resolveFontPath env st fpA).1 with
  | error e =>
    rw [show (createQuote env st quote author osize fpA fsA tcA bgA sty).1 =
      (Except.error (outerWrap e) : Except PyErr Img) by
        simp only [createQuote, hres1]] at hok
    cases hok
  | ok fontPath =>
    simp only [createQuote, hres1] at hok
    split at hok
    · simp at hok
    · next fontSize heq2 =>
      split at hok
      · simp at hok
      · next background heq3 =>
        refine ⟨(resolveFontPath env st fpA).2.1, background,
          renderDrawOps env (resolveStyle sty) quote author osize.1 osize.2
            fontPath fontSize
            (tcA.getD ((resolveStyle sty).text_color.getD (255, 255, 255)))
            (0, 0, 0, (resolveStyle sty).shadow_opacity.getD 180),
          resolveFontPath_gradientCache env st fpA, heq3, ?_⟩
        split at hok
        · next hflag =>
          refine Or.inr ⟨hflag, ?_, ?_⟩
          · simpa using hok.symm
          · simp only [createQuote, hres1, heq2, heq3, hflag]
            simp
        · next hflag =>
          have hflag2 : (resolveStyle sty).rounded_corners.getD false = false := by
            simpa using hflag
          refine Or.inl ⟨hflag2, ?_, ?_⟩
          · simpa using hok.symm
          · intro rad
            simp only [createQuote, hres1, heq2, heq3, hflag2]
            intro hmem
            simp only [Bool.false_eq_true, if_false, List.mem_append] at hmem
            rcases hmem with (h | h) | h
            · exact resolveFontPath_no_rounded env st fpA rad h
            · exact prepareBackground_no_rounded env _ bgA osize _ rad h
            · rcases List.mem_map.mp h with ⟨op2, _, heq4⟩
              cases heq4

/-- C8: when the resolved style's `rounded_corners` flag is false,
no corner-masking pass runs (no `rounded` event in the trace) and, for a
background that decodes without its own transparency, the output's
alpha channel stays fully opaque everywhere — the corners are not
modified.  When the flag is true, the mask with corner radius
`int(min(width, height) * 0.05)` is applied: the alpha of every pixel
in a corner square whose centre lies outside the per-corner disc is
zeroed, and the straight edges (pixels in no corner square) are left
fully opaque. -/
theorem c8_rounded_corner_masking (env : Env) (st : MiqState) (quote : String)
    (author : Option String) (osize : Nat × Nat) (fpA : Option String)
    (fsA : Option Nat) (tcA : Option RGB) (bgA : Option Img) (sty : StyleSel)
    (img : Img) (hA : AlphaFaithful env)
    (hg : GradientCacheWF st.gradientCache)
    (hsrc1 : ∀ p im, env.openImage p = some im → im.mode ≠ "RGBA")
    (hsrc2 : ∀ im, bgA = some im → im.mode ≠ "RGBA")
    (hop : (resolveStyle sty).overlay_opacity.getD 160 ≤ 255)
    (hok : (createQuote env st quote author osize fpA fsA tcA bgA sty).1
      = .ok img) :
    ((resolveStyle sty).rounded_corners.getD false = false →
      (∀ rad, Ev.rounded rad ∉
        (createQuote env st quote author osize fpA fsA tcA bgA sty).2.2) ∧
      ∀ x y, img.alpha x y = 255) ∧
    ((resolveStyle sty).rounded_corners.getD false = true →
      Ev.rounded (min osize.1 osize.2 * 5 / 100) ∈
        (createQuote env st quote author osize fpA fsA tcA bgA sty).2.2 ∧
      (∀ x y, specOutsideRounded osize.1 osize.2
        (min osize.1 osize.2 * 5 / 100) x y → img.alpha x y = 0) ∧
      (∀ x y, specStraightEdge osize.1 osize.2
        (min osize.1 osize.2 * 5 / 100) x y → img.alpha x y = 255)) := by
  obtain ⟨st1, background, ops, hgc, hprep, hcase⟩ :=
    createQuote_ok_shape env st quote author osize fpA fsA tcA bgA sty img hok
  have hg1 : GradientCacheWF st1.gradientCache := hgc ▸ hg
  have hdims := prepareBackground_dims env st1 bgA osize (resolveStyle sty)
    background hprep
  have halpha := prepareBackground_alpha_opaque env hA st1 hg1 bgA osize
    (resolveStyle sty) background hsrc1 hsrc2 hop hprep
  have hmin1 : min osize.1 osize.2 ≤ osize.1 := Nat.min_le_left _ _
  have hmin2 : min osize.1 osize.2 ≤ osize.2 := Nat.min_le_right _ _
  constructor
  · intro hflag
    rcases hcase with ⟨_, himg, htr⟩ | ⟨hf, _, _⟩
    · refine ⟨htr, ?_⟩
      intro x y
      rw [himg]
      show alphaOver (env.textRaster ops x y) (background.alpha x y) = 255
      rw [halpha x y]
      exact alphaOver_opaque _ (hA.2.2 ops x y)
    · rw [hflag] at hf
      cases hf
  · intro hflag
    rcases hcase with ⟨hf, _, _⟩ | ⟨_, himg, htr⟩
    · rw [hflag] at hf
      cases hf
    · refine ⟨htr, ?_, ?_⟩
      · intro x y hout
        rw [himg]
        show roundedMaskAlpha background.w background.h
          (min osize.1 osize.2 * 5 / 100) x y = 0
        rw [hdims.1, hdims.2.1]
        exact roundedMask_outside osize.1 osize.2 _ x y (by omega) (by omega)
          hout
      · intro x y hse
        rw [himg]
        show roundedMaskAlpha background.w background.h
          (min osize.1 osize.2 * 5 / 100) x y = 255
        rw [hdims.1, hdims.2.1]
        exact roundedMask_straight osize.1 osize.2 _ x y hse

/-- C8 witness: a concrete `"modern"` (rounded) run then zeroes the
top-left corner pixel and keeps a top-edge pixel opaque, with every
hypothesis discharged on the concrete environment. -/
theorem c8_rounded_corner_masking_witness :
    ∃ img, (createQuote envA initState "Hello world" none (1080, 1080) none none
        none none (.presetName "modern")).1 = .ok img ∧
      img.alpha 0 0 = 0 ∧ img.alpha 540 0 = 255 := by
  have hA : AlphaFaithful envA := by
    refine ⟨?_, ?_, ?_⟩
    · intro a c hc ssz dsz x y
      exact hc x y
    · intro a c hc x y
      exact hc x y
    · intro ops x y
      exact Nat.zero_le _
  cases h : (createQuote envA initState "Hello world" none (1080, 1080) none none
      none none (.presetName "modern")).1 with
  | error e =>
    have hisok : (createQuote envA initState "Hello world" none (1080, 1080) none
        none none none (.presetName "modern")).1.isOk = true := rfl
    rw [h] at hisok
    cases hisok
  | ok img =>
    have hmain := c8_rounded_corner_masking envA initState "Hello world" none
      (1080, 1080) none none none none (.presetName "modern") img hA
      (by intro kv hkv; cases hkv)
      (by
        intro p im him
        cases him
        decide)
      (by intro im him; cases him)
      (by decide) h
    refine ⟨img, rfl, ?_, ?_⟩
    · exact (hmain.2 rfl).2.1 0 0 (by unfold specOutsideRounded; decide)
    · exact (hmain.2 rfl).2.2 540 0 (by unfold specStraightEdge; decide)

end Miq

